import Mathlib

/-!
Verification of the statement parsing and reconciliation engine of the
`pdfreader` repository (files `api.py` and `bank_reader_ai.py`).

The Python source is shallowly embedded: dictionaries become records,
Python floats become rationals, regular-expression scans become explicit
recursive scanners over character lists, and the per-document pipeline
state (the running balance) becomes an explicit argument.
-/

namespace PdfReader

/-! ### Character and string utilities -/

/-- Numeric value of a decimal digit character (`'0'` ↦ 0, …, `'9'` ↦ 9). -/
def charVal (c : Char) : Nat := c.toNat - 48

/-- The decimal digit character for a value `0 ≤ n ≤ 9`. -/
def digitChar : Nat → Char
  | 0 => '0' | 1 => '1' | 2 => '2' | 3 => '3' | 4 => '4'
  | 5 => '5' | 6 => '6' | 7 => '7' | 8 => '8' | _ => '9'

/-- Decimal rendering with explicit fuel (structural recursion keeps the
function kernel-computable); `n + 1` units of fuel always suffice. -/
def natToCharsAux : Nat → Nat → List Char
  | 0, _ => []
  | fuel + 1, n =>
    if n < 10 then [digitChar n]
    else natToCharsAux fuel (n / 10) ++ [digitChar (n % 10)]

/-- Decimal rendering of a natural number, as Python `str` produces it. -/
def natToChars (n : Nat) : List Char := natToCharsAux (n + 1) n

/-- Two-digit zero-padded rendering (`strftime` `%m`, `%d`, and f-string `:02d`). -/
def pad2 (n : Nat) : List Char := [digitChar (n / 10), digitChar (n % 10)]

/-- Value of a list of decimal digit characters read left to right. -/
def digitsVal (l : List Char) : Nat := l.foldl (fun acc c => acc * 10 + charVal c) 0

/-- `needle` occurs as a contiguous substring of `hay`
(Python's `needle in hay` on strings). -/
def containsSub (hay nd : List Char) : Bool :=
  match hay with
  | [] => nd.isEmpty
  | _ :: t => nd.isPrefixOf hay || containsSub t nd

/-- String-level substring test. -/
def strContains (hay nd : String) : Bool := containsSub hay.toList nd.toList

/-- Python `str.upper()` (ASCII behaviour). -/
def upperChars (l : List Char) : List Char := l.map Char.toUpper

/-- Python `str.lower()` (ASCII behaviour). -/
def lowerChars (l : List Char) : List Char := l.map Char.toLower

/-- Python `str.strip()`: drop leading and trailing whitespace. -/
def stripChars (l : List Char) : List Char :=
  ((l.dropWhile Char.isWhitespace).reverse.dropWhile Char.isWhitespace).reverse

/-- `re.sub(r'\s+', ' ', s)`: collapse every whitespace run to one space.
The flag records whether the previous character was inside a run. -/
def collapseWSAux : Bool → List Char → List Char
  | _, [] => []
  | prevWS, c :: rest =>
    if c.isWhitespace then
      if prevWS then collapseWSAux true rest else ' ' :: collapseWSAux true rest
    else c :: collapseWSAux false rest

/-- Whitespace collapsing starting outside a run. -/
def collapseWS (l : List Char) : List Char := collapseWSAux false l

/-! ### Amount normalization (`BankStatementReaderAI.normalize_amount_value`)

Python floats are modelled as rationals; `round(x, 2)` becomes rounding to a
multiple of 1/100. -/

/-- `round(x, 2)`: round to two decimal places. -/
def round2 (q : ℚ) : ℚ := (round (q * 100) : ℤ) / 100

/-- Value of a fractional-digit string: `fracVal "45" = 45/100`. -/
def fracVal (l : List Char) : ℚ := l.foldr (fun c acc => ((charVal c : ℚ) + acc) / 10) 0

/-- Parse an unsigned decimal literal (`float` on strings made of digits and
at most one dot): integer part, optional dot, fractional part; at least one
digit overall and nothing left over. -/
def parseUnsigned (l : List Char) : Option ℚ :=
  let ip := l.takeWhile Char.isDigit
  let rest := l.dropWhile Char.isDigit
  match rest with
  | [] => if ip.isEmpty then none else some ((digitsVal ip : ℚ))
  | '.' :: rest2 =>
    let fp := rest2.takeWhile Char.isDigit
    let rest3 := rest2.dropWhile Char.isDigit
    if rest3.isEmpty && !(ip.isEmpty && fp.isEmpty) then
      some ((digitsVal ip : ℚ) + fracVal fp)
    else none
  | _ => none

/-- Python `float(s)` for strings over the alphabet kept by the cleaning
regex (digits, `.`, `-`): an optional leading minus then an unsigned literal. -/
def parseFloat (l : List Char) : Option ℚ :=
  match l with
  | '-' :: rest => (parseUnsigned rest).map (fun q => -q)
  | _ => parseUnsigned l

/-- Characters kept by `re.sub(r'[^\d\.\-]', '', s)`. -/
def isAmountChar (c : Char) : Bool := c.isDigit || c = '.' || c = '-'

/-- `BankStatementReaderAI.normalize_amount_value`: `None`/`''`/`'N/A'` map to
`none` (the `None` input is merged with `''`, both short-circuit identically),
other input is cleaned to digits/dot/minus, rejected when degenerate, parsed
as a float and rounded to two decimals. -/
def normalize_amount_value (amount_str : String) : Option ℚ :=
  if amount_str = "" || amount_str = "N/A" then none
  else
    let cleaned := amount_str.toList.filter isAmountChar
    if cleaned = [] || cleaned = ['-'] || cleaned = ['.'] || cleaned = ['-', '.'] then none
    else
      match parseFloat cleaned with
      | some v => some (round2 v)
      | none => none

/-- Rendering of a two-decimal amount, as the f-string `f"{x:.2f}"` renders a
float that is a multiple of 1/100. -/
def format2 (q : ℚ) : String :=
  let n : ℤ := round (q * 100)
  ⟨(if n < 0 then ['-'] else []) ++ natToChars (n.natAbs / 100) ++ '.' :: pad2 (n.natAbs % 100)⟩

/-! ### Date normalization (`BankStatementReaderAI.normalize_date_string`)

CPython's `strptime` compiles each format string to a regular expression
(`%d` ↦ `3[01]|[12]\d|0[1-9]|[1-9]`, `%m` ↦ `1[0-2]|0[1-9]|[1-9]`,
`%Y` ↦ `\d{4}`, `%y` ↦ `\d{2}` with the ≤68 century pivot, `%b`/`%B` ↦
case-insensitive month names, whitespace ↦ `\s+`), takes the first match in
backtracking order, raises when trailing input remains or the calendar date
is invalid, and the reader then renders `%Y-%m-%d`.  The embedding below
enumerates the regex candidates in backtracking order. -/

/-- Tokens of a compiled `strptime` format string. -/
inductive DTok where
  | lit (c : Char)
  | ws
  | dd
  | mm
  | y4
  | y2
  | bmon
  | bfull
deriving DecidableEq

/-- A parsed-out calendar date (strptime defaults to 1900-01-01). -/
structure PDate where
  year : Nat := 1900
  month : Nat := 1
  day : Nat := 1
deriving DecidableEq

/-- Candidates for `%d` (`3[01]|[12]\d|0[1-9]|[1-9]`), in regex alternative order. -/
def parseDD (l : List Char) : List (Nat × List Char) :=
  (match l with
   | '3' :: c2 :: rest => if c2 = '0' ∨ c2 = '1' then [(30 + charVal c2, rest)] else []
   | _ => []) ++
  (match l with
   | c1 :: c2 :: rest =>
     if (c1 = '1' ∨ c1 = '2') ∧ c2.isDigit then [(10 * charVal c1 + charVal c2, rest)] else []
   | _ => []) ++
  (match l with
   | '0' :: c2 :: rest => if '1' ≤ c2 ∧ c2 ≤ '9' then [(charVal c2, rest)] else []
   | _ => []) ++
  (match l with
   | c1 :: rest => if '1' ≤ c1 ∧ c1 ≤ '9' then [(charVal c1, rest)] else []
   | _ => [])

/-- Candidates for `%m` (`1[0-2]|0[1-9]|[1-9]`), in regex alternative order. -/
def parseMM (l : List Char) : List (Nat × List Char) :=
  (match l with
   | '1' :: c2 :: rest =>
     if c2 = '0' ∨ c2 = '1' ∨ c2 = '2' then [(10 + charVal c2, rest)] else []
   | _ => []) ++
  (match l with
   | '0' :: c2 :: rest => if '1' ≤ c2 ∧ c2 ≤ '9' then [(charVal c2, rest)] else []
   | _ => []) ++
  (match l with
   | c1 :: rest => if '1' ≤ c1 ∧ c1 ≤ '9' then [(charVal c1, rest)] else []
   | _ => [])

/-- `%Y`: exactly four digits. -/
def parseY4 (l : List Char) : List (Nat × List Char) :=
  match l with
  | a :: b :: c :: d :: rest =>
    if a.isDigit ∧ b.isDigit ∧ c.isDigit ∧ d.isDigit then
      [(1000 * charVal a + 100 * charVal b + 10 * charVal c + charVal d, rest)]
    else []
  | _ => []

/-- `%y`: exactly two digits, with CPython's century pivot (≤ 68 ↦ 2000s). -/
def parseY2 (l : List Char) : List (Nat × List Char) :=
  match l with
  | a :: b :: rest =>
    if a.isDigit ∧ b.isDigit then
      let v := 10 * charVal a + charVal b
      [(if v ≤ 68 then 2000 + v else 1900 + v, rest)]
    else []
  | _ => []

/-- Strip a pattern given in lowercase from the input, case-insensitively. -/
def dropCI : List Char → List Char → Option (List Char)
  | [], l => some l
  | _, [] => none
  | p :: ps, c :: cs => if c.toLower = p then dropCI ps cs else none

/-- Month abbreviations for `%b`, in CPython's alternative order. -/
def monthAbbrs : List (List Char × Nat) :=
  [(['j','a','n'], 1), (['f','e','b'], 2), (['m','a','r'], 3), (['a','p','r'], 4),
   (['m','a','y'], 5), (['j','u','n'], 6), (['j','u','l'], 7), (['a','u','g'], 8),
   (['s','e','p'], 9), (['o','c','t'], 10), (['n','o','v'], 11), (['d','e','c'], 12)]

/-- Full month names for `%B`, in CPython's (length-descending) alternative order. -/
def monthFulls : List (List Char × Nat) :=
  [(['s','e','p','t','e','m','b','e','r'], 9),
   (['f','e','b','r','u','a','r','y'], 2),
   (['n','o','v','e','m','b','e','r'], 11),
   (['d','e','c','e','m','b','e','r'], 12),
   (['j','a','n','u','a','r','y'], 1),
   (['o','c','t','o','b','e','r'], 10),
   (['a','u','g','u','s','t'], 8),
   (['m','a','r','c','h'], 3),
   (['a','p','r','i','l'], 4),
   (['j','u','n','e'], 6),
   (['j','u','l','y'], 7),
   (['m','a','y'], 5)]

/-- Candidates for a month-name token. -/
def parseName (names : List (List Char × Nat)) (l : List Char) : List (Nat × List Char) :=
  names.filterMap (fun nv => (dropCI nv.1 l).map (fun rest => (nv.2, rest)))

/-- Candidate list of one token, in regex backtracking order.  `ws` uses
maximal munch, which is exact here because no token following `\s+` in any
of the reader's formats can match a whitespace character. -/
def parseTok : DTok → List Char → List (Nat × List Char)
  | .lit c, l =>
    match l with
    | c' :: rest => if c' = c then [(0, rest)] else []
    | [] => []
  | .ws, l =>
    if (l.takeWhile Char.isWhitespace).isEmpty then []
    else [(0, l.dropWhile Char.isWhitespace)]
  | .dd, l => parseDD l
  | .mm, l => parseMM l
  | .y4, l => parseY4 l
  | .y2, l => parseY2 l
  | .bmon, l => parseName monthAbbrs l
  | .bfull, l => parseName monthFulls l

/-- Record a token's captured value. -/
def applyTok (pd : PDate) : DTok → Nat → PDate
  | .dd, v => { pd with day := v }
  | .mm, v => { pd with month := v }
  | .bmon, v => { pd with month := v }
  | .bfull, v => { pd with month := v }
  | .y4, v => { pd with year := v }
  | .y2, v => { pd with year := v }
  | _, _ => pd

/-- All full-pattern parses of a token sequence, in backtracking order. -/
def runToks : List DTok → PDate → List Char → List (PDate × List Char)
  | [], pd, l => [(pd, l)]
  | t :: ts, pd, l =>
    (parseTok t l).flatMap (fun vr => runToks ts (applyTok pd t vr.1) vr.2)

/-- Gregorian leap year. -/
def isLeap (y : Nat) : Bool := y % 4 = 0 && (y % 100 ≠ 0 || y % 400 = 0)

/-- Days in a month. -/
def daysInMonth (y m : Nat) : Nat :=
  if m = 2 then (if isLeap y then 29 else 28)
  else if m = 4 ∨ m = 6 ∨ m = 9 ∨ m = 11 then 30
  else 31

/-- The validity check `datetime(year, month, day)` performs. -/
def validDate (pd : PDate) : Bool :=
  1 ≤ pd.year && pd.year ≤ 9999 && 1 ≤ pd.month && pd.month ≤ 12 &&
    1 ≤ pd.day && pd.day ≤ daysInMonth pd.year pd.month

/-- One `strptime` format: its compiled tokens and whether the format string
contains `"%y"` (used by the reader's post-parse century adjustment). -/
structure DFormat where
  toks : List DTok
  hasY2 : Bool

/-- The reader's `date_formats` list, in source order. -/
def date_formats : List DFormat :=
  [⟨[.y4, .lit '-', .mm, .lit '-', .dd], false⟩,          -- %Y-%m-%d
   ⟨[.dd, .lit '/', .mm, .lit '/', .y4], false⟩,          -- %d/%m/%Y
   ⟨[.dd, .lit '-', .mm, .lit '-', .y4], false⟩,          -- %d-%m-%Y
   ⟨[.dd, .lit '.', .mm, .lit '.', .y4], false⟩,          -- %d.%m.%Y
   ⟨[.dd, .lit '/', .mm, .lit '/', .y2], true⟩,           -- %d/%m/%y
   ⟨[.dd, .lit '-', .mm, .lit '-', .y2], true⟩,           -- %d-%m-%y
   ⟨[.dd, .lit '.', .mm, .lit '.', .y2], true⟩,           -- %d.%m.%y
   ⟨[.bmon, .ws, .dd, .lit ',', .ws, .y4], false⟩,        -- %b %d, %Y
   ⟨[.bmon, .ws, .dd, .lit ',', .y4], false⟩,             -- %b %d,%Y
   ⟨[.bfull, .ws, .dd, .lit ',', .ws, .y4], false⟩,       -- %B %d, %Y
   ⟨[.bfull, .ws, .dd, .lit ',', .y4], false⟩,            -- %B %d,%Y
   ⟨[.dd, .ws, .bmon, .ws, .y4], false⟩,                  -- %d %b %Y
   ⟨[.dd, .ws, .bfull, .ws, .y4], false⟩,                 -- %d %B %Y
   ⟨[.dd, .lit '-', .bmon, .lit '-', .y4], false⟩,        -- %d-%b-%Y
   ⟨[.dd, .lit '-', .bmon, .lit '-', .y2], true⟩,         -- %d-%b-%y
   ⟨[.dd, .lit '/', .bmon, .lit '/', .y4], false⟩,        -- %d/%b/%Y
   ⟨[.dd, .lit '/', .bmon, .lit '/', .y2], true⟩]         -- %d/%b/%y

/-- `datetime.strptime(cleaned, fmt)`: the regex engine's first full-pattern
match must consume the whole input and yield a constructible date. -/
def tryFormat (f : DFormat) (l : List Char) : Option PDate :=
  match (runToks f.toks {} l).head? with
  | none => none
  | some (pd, rest) => if rest = [] ∧ validDate pd then some pd else none

/-- The reader's century adjustment: two-digit-year formats with a parsed
year below 1950 get 2000 added (dead in practice, since the `%y` pivot never
produces a year below 1969, but embedded faithfully). -/
def adjustY2 (f : DFormat) (pd : PDate) : PDate :=
  if f.hasY2 ∧ pd.year < 1950 then { pd with year := pd.year + 2000 } else pd

/-- `parsed.strftime("%Y-%m-%d")`: unpadded year (glibc behaviour; all years
reachable here are ≥ 1000 four-digit anyway), zero-padded month and day. -/
def renderISO (pd : PDate) : String :=
  ⟨natToChars pd.year ++ '-' :: pad2 pd.month ++ '-' :: pad2 pd.day⟩

/-- The two-character ordinal suffixes `st`/`nd`/`rd`/`th`,
case-insensitively. -/
def isOrdPair (a b : Char) : Bool :=
  (a.toLower = 's' && b.toLower = 't') || (a.toLower = 'n' && b.toLower = 'd') ||
  (a.toLower = 'r' && b.toLower = 'd') || (a.toLower = 't' && b.toLower = 'h')

/-- `re.sub(r'(\d+)(st|nd|rd|th)', r'\1', s, flags=IGNORECASE)`: the flag
records whether the previous character was a digit, i.e. whether an ordinal
suffix closing a digit run may be dropped here. -/
def stripOrdGo : Bool → List Char → List Char
  | _, [] => []
  | _, [c] => [c]
  | inRun, c :: c2 :: rest =>
    if c.isDigit then c :: stripOrdGo true (c2 :: rest)
    else if inRun && isOrdPair c c2 then stripOrdGo false rest
    else c :: stripOrdGo false (c2 :: rest)

/-- The ordinal-suffix substitution, starting outside a digit run. -/
def stripOrdinals (l : List Char) : List Char := stripOrdGo false l

/-- `str.replace('Sept', 'Sep')`: case-sensitive, left to right. -/
def replaceSept : List Char → List Char
  | 'S' :: 'e' :: 'p' :: 't' :: rest => 'S' :: 'e' :: 'p' :: replaceSept rest
  | c :: rest => c :: replaceSept rest
  | [] => []

/-- Try the formats in order, returning the first successful normalization. -/
def firstFormat : List DFormat → List Char → Option String
  | [], _ => none
  | f :: fs, l =>
    match tryFormat f l with
    | some pd => some (renderISO (adjustY2 f pd))
    | none => firstFormat fs l

/-- `BankStatementReaderAI.normalize_date_string`. -/
def normalize_date_string (date_str : String) : Option String :=
  if date_str = "" then none
  else
    let cleaned0 := stripChars date_str.toList
    if cleaned0 = [] then none
    else firstFormat date_formats (replaceSept (collapseWS (stripOrdinals cleaned0)))

/-! ### The transaction record

Python transaction dictionaries become a record; an absent or `None` string
field is the empty string (both are falsy in every use the engine makes of
them), the optional numeric `amountValue` is an `Option`. -/

/-- A transaction dictionary. -/
structure Tx where
  date : String := ""
  originalDate : String := ""
  time : String := ""
  description : String := ""
  type : String := ""
  amount : String := ""
  currency : String := ""
  amountValue : Option ℚ := none
  rawLine : String := ""
  sourceFile : String := ""
  narration : String := ""
  details : String := ""
  merchant : String := ""
  toField : String := ""
  paidBy : String := ""
  tags : List String := []
  isSubscription : Bool := false
  subscriptionReason : String := ""
  category : String := ""
  categorySource : String := ""
  duplicateGroupKey : String := ""
deriving DecidableEq

/-- Python `str.lower()` at string level. -/
def lowerStr (s : String) : String := ⟨lowerChars s.toList⟩

/-- Python `str.upper()` at string level. -/
def upperStr (s : String) : String := ⟨upperChars s.toList⟩

/-- `api._prepare_detection_text`: join the truthy detection fields in order,
collapse whitespace, strip, uppercase. -/
def prepare_detection_text (tx : Tx) : String :=
  let parts := [tx.description, tx.narration, tx.rawLine, tx.details,
                tx.merchant, tx.toField, tx.paidBy].filter (· ≠ "")
  upperStr ⟨stripChars (collapseWS (String.intercalate " " parts).toList)⟩

/-! ### Subscription detection (`api.detect_subscription`) -/

/-- `api.SUBSCRIPTION_KEYWORDS`, in source order (including the duplicated
`'AUTO PAYMENT'` entry). -/
def SUBSCRIPTION_KEYWORDS : List String :=
  ["SUBSCRIPTION", "SUBSCR", "MEMBERSHIP", "RENEWAL", "AUTO PAY", "AUTOPAY",
   "AUTO-DEBIT", "RECURRING", "MONTHLY PLAN", "MONTHLY FEE", "MONTHLY CHARGES",
   "PLAN FEE", "UPI AUTOPAY", "UPI-AUTOPAY", "SI-HDFC", "STANDING INSTRUCTION",
   "MANDATE", "E-NACH", "ENACH", "SI BILLDESK", "AUTO PAYMENT", "AUTO PAYMENT",
   "AUTOMATIC PAYMENT", "AUTO-RENEW", "AUTO RENEW"]

/-- `api.SUBSCRIPTION_MERCHANTS`, in source order. -/
def SUBSCRIPTION_MERCHANTS : List String :=
  ["NETFLIX", "SPOTIFY", "YOUTUBE", "GOOGLE STORAGE", "GOOGLE ONE",
   "AMAZON PRIME", "PRIME VIDEO", "HOTSTAR", "SONYLIV", "ZEE5", "APPLE.COM",
   "APPLE BILL", "ICLOUD", "MICROSOFT", "OFFICE 365", "OFFICE365", "GITHUB",
   "FIGMA", "ADOBE", "NOTION", "ZOOM", "DROPBOX", "CANVA", "OPENAI",
   "ANTHROPIC", "CLAUDE.AI", "CURSOR", "SLACK", "ATLASSIAN", "JIRA",
   "SWIGGY ONE", "BIGBASKET BBSTAR", "URBANCLAP PLUS", "CRED PRIME",
   "PHONEPE PASS", "SPOTIFY AB", "QUILLBOT", "SUBSTACK", "MIRROR AI"]

/-- Word character for `\b` (`[A-Za-z0-9_]` on this data). -/
def isWordChar (c : Char) : Bool := c.isAlphanum || c = '_'

/-- `\b` after the end of a match: end of input or a non-word character. -/
def bAfter (l : List Char) : Bool :=
  match l with
  | [] => true
  | c :: _ => !isWordChar c

/-- Scan every position of the input (like `re.search`), tracking the
previous character so `\b` before a word-initial pattern can be decided. -/
def scanB (matchAt : List Char → Bool) : Option Char → List Char → Bool
  | prev, [] => (match prev with | none => true | some p => !isWordChar p) && matchAt []
  | prev, c :: rest =>
    ((match prev with | none => true | some p => !isWordChar p) && matchAt (c :: rest))
      || scanB matchAt (some c) rest

/-- `\bUPI[-\s]?AUTO(?:PAY| DEBIT)\b` at one position (case-insensitive). -/
def upiAutoAt (l : List Char) : Bool :=
  match dropCI "upi".toList l with
  | none => false
  | some r1 =>
    let afterAuto (r : List Char) : Bool :=
      match dropCI "auto".toList r with
      | none => false
      | some r2 =>
        (match dropCI "pay".toList r2 with
         | some r3 => bAfter r3
         | none => false) ||
        (match r2 with
         | ' ' :: r3 =>
           (match dropCI "debit".toList r3 with
            | some r4 => bAfter r4
            | none => false)
         | _ => false)
    afterAuto r1 ||
      (match r1 with
       | c :: r1' => (c = '-' || c.isWhitespace) && afterAuto r1'
       | [] => false)

/-- `\bAUTO[-\s]?RENEW(AL)?\b` at one position. -/
def autoRenewAt (l : List Char) : Bool :=
  match dropCI "auto".toList l with
  | none => false
  | some r1 =>
    let afterRenew (r : List Char) : Bool :=
      match dropCI "renew".toList r with
      | none => false
      | some r2 =>
        (match dropCI "al".toList r2 with
         | some r3 => bAfter r3
         | none => false) || bAfter r2
    afterRenew r1 ||
      (match r1 with
       | c :: r1' => (c = '-' || c.isWhitespace) && afterRenew r1'
       | [] => false)

/-- `\bRECURRING\s+PAYMENT\b` at one position (`\s+` by maximal munch, exact
since the following literal is not whitespace). -/
def recurringPaymentAt (l : List Char) : Bool :=
  match dropCI "recurring".toList l with
  | none => false
  | some r1 =>
    !(r1.takeWhile Char.isWhitespace).isEmpty &&
      (match dropCI "payment".toList (r1.dropWhile Char.isWhitespace) with
       | some r2 => bAfter r2
       | none => false)

/-- `\bSI\s*/\s*ACH\b` at one position. -/
def siAchAt (l : List Char) : Bool :=
  match dropCI "si".toList l with
  | none => false
  | some r1 =>
    match r1.dropWhile Char.isWhitespace with
    | '/' :: r2 =>
      (match dropCI "ach".toList (r2.dropWhile Char.isWhitespace) with
       | some r3 => bAfter r3
       | none => false)
    | _ => false

/-- `\bAUTH\s*MANDATE\b` at one position. -/
def authMandateAt (l : List Char) : Bool :=
  match dropCI "auth".toList l with
  | none => false
  | some r1 =>
    match dropCI "mandate".toList (r1.dropWhile Char.isWhitespace) with
    | some r2 => bAfter r2
    | none => false

/-- `api.SUBSCRIPTION_REGEXES`: the search function of each compiled pattern
paired with its `pattern.pattern` source text, in source order. -/
def SUBSCRIPTION_REGEXES : List ((String → Bool) × String) :=
  [(fun s => scanB upiAutoAt none s.toList, "\\bUPI[-\\s]?AUTO(?:PAY| DEBIT)\\b"),
   (fun s => scanB autoRenewAt none s.toList, "\\bAUTO[-\\s]?RENEW(AL)?\\b"),
   (fun s => scanB recurringPaymentAt none s.toList, "\\bRECURRING\\s+PAYMENT\\b"),
   (fun s => scanB siAchAt none s.toList, "\\bSI\\s*/\\s*ACH\\b"),
   (fun s => scanB authMandateAt none s.toList, "\\bAUTH\\s*MANDATE\\b")]

/-- `api.detect_subscription`. -/
def detect_subscription (tx : Tx) : Bool × String :=
  let text := prepare_detection_text tx
  if text = "" then (false, "")
  else
    match SUBSCRIPTION_KEYWORDS.find? (fun kw => strContains text kw) with
    | some kw => (true, "keyword:" ++ lowerStr kw)
    | none =>
      match SUBSCRIPTION_REGEXES.find? (fun pr => pr.1 text) with
      | some pr => (true, "pattern:" ++ pr.2)
      | none =>
        match SUBSCRIPTION_MERCHANTS.find? (fun m => strContains text m) with
        | some m => (true, "merchant:" ++ lowerStr m)
        | none =>
          if strContains text "AUTO" && (strContains text "PAY" || strContains text "DEBIT") then
            (true, "heuristic:autopay")
          else if strContains text "SI/" || strContains text "STANDING INST" then
            (true, "heuristic:standing_instruction")
          else if strContains text "SUB " || strContains text "SUB-" then
            (true, "heuristic:subscription_shorthand")
          else (false, "")

/-- The per-transaction subscription stamping of `api.combine_all_transactions`
(tag list gains or loses `"subscription"` to match the detection flag). -/
def apply_subscription (tx : Tx) : Tx :=
  let dr := detect_subscription tx
  if dr.1 then
    { tx with
      tags := if "subscription" ∈ tx.tags then tx.tags else tx.tags ++ ["subscription"],
      isSubscription := true,
      subscriptionReason := dr.2 }
  else
    { tx with
      tags := tx.tags.filter (· ≠ "subscription"),
      isSubscription := false,
      subscriptionReason := "" }

/-! ### Categories (`api.auto_categorize_transaction`,
`api.resolve_transaction_category`) -/

/-- `api.DEFAULT_CATEGORY_DEFS` as (value, label) pairs. -/
def DEFAULT_CATEGORY_DEFS : List (String × String) :=
  [("foods", "Foods & Dining"), ("fuel", "Fuel"), ("recharge", "Recharge & Utilities"),
   ("mutual_fund", "Mutual Fund"), ("credit_bills", "Credit Bills"),
   ("income", "Income"), ("others", "Others")]

/-- `api.CATEGORY_KEYWORDS`, in dictionary insertion order. -/
def CATEGORY_KEYWORDS : List (String × List String) :=
  [("foods", ["SWIGGY", "ZOMATO", "FOOD", "DINING", "RESTAURANT", "PIZZA", "CAFE",
              "DOMINOS", "EATS", "BBQ NATION", "KFC", "MCDONALD"]),
   ("fuel", ["FUEL", "PETROL", "DIESEL", "HPCL", "IOCL", "BPCL", "SHELL", "ESSAR",
             "FILLING STATION", "AUTOFUEL", "HP PAY"]),
   ("recharge", ["RECHARGE", "FASTAG", "MOBILE", "PREPAID", "POSTPAID", "DTH",
                 "BROADBAND", "AIRTEL", "JIO", "VODAFONE", "VI ", "BSNL", "DATA CARD"]),
   ("mutual_fund", ["MUTUAL FUND", "SIP", "SYSTEMATIC INVEST", "AMC", "CAMS",
                    "KFINTECH", "MFU", "GROWW", "ZERODHA COIN", "CLEARFUNDS",
                    "INVESTMENT SERVICES"]),
   ("credit_bills", ["CREDIT CARD PAYMENT", "CARD PAYMENT", "CC PAYMENT",
                     "HDFC BANK CARD", "ICICI CREDIT CARD", "BILLDESK",
                     "STATEMENT PAYMENT", "CARDSETTLEMENT", "HDFCBANKCC",
                     "PAYTM CREDIT CARD"]),
   ("income", ["SALARY", "PAYROLL", "NEFT CR", "REFUND", "INTEREST", "DIVIDEND",
               "REIMBURSEMENT", "CREDITED BY", "CREDIT FROM", "PAYMENT RECEIVED"])]

/-- `api.get_category_options`: defaults first, then the custom categories
whose value is not already taken. -/
def get_category_options (custom : List (String × String)) : List (String × String) :=
  custom.foldl (fun opts c => if opts.any (fun o => o.1 = c.1) then opts else opts ++ [c])
    DEFAULT_CATEGORY_DEFS

/-- The key set of `api.get_category_label_map` (option values). -/
def category_label_keys (custom : List (String × String)) : List String :=
  (get_category_options custom).map (fun o => o.1)

/-- `api.auto_categorize_transaction`: first category (in table order) with a
matching keyword, the income row only eligible for credits; default `income`
for credits, else `others`. -/
def auto_categorize_transaction (tx : Tx) : String :=
  let text := prepare_detection_text tx
  let is_credit := upperStr tx.type = "CREDIT"
  match CATEGORY_KEYWORDS.find?
      (fun ck => (decide (ck.1 ≠ "income") || is_credit) &&
        ck.2.any (fun kw => strContains text kw)) with
  | some ck => ck.1
  | none => if is_credit then "income" else "others"

/-- `api.resolve_transaction_category`: a stored override wins only when its
value is a currently valid slug; otherwise auto-categorization, clamped to
the valid slugs with `others` as the fallback. -/
def resolve_transaction_category (custom : List (String × String)) (group_key : String)
    (tx : Tx) (overrides : String → Option String) : String × String :=
  let label_keys := category_label_keys custom
  let autoPart : String × String :=
    let auto := auto_categorize_transaction tx
    (if label_keys.contains auto then auto else "others", "auto")
  match overrides group_key with
  | some manual => if label_keys.contains manual then (manual, "manual") else autoPart
  | none => autoPart

/-! ### Format detection (`BankStatementReaderAI.detect_format`) -/

/-- `re.search(r'\d{2}/\d{2}/\d{2}', text)` at one position. -/
def ddSlashAt (l : List Char) : Bool :=
  match l with
  | a :: b :: c :: d :: e :: f :: g :: h :: _ =>
    a.isDigit && b.isDigit && (c = '/') && d.isDigit && e.isDigit && (f = '/') &&
      g.isDigit && h.isDigit
  | _ => false

/-- `re.search(r'\d{2}/\d{2}/\d{2}', text)` anywhere. -/
def hasDDslash : List Char → Bool
  | [] => false
  | c :: rest => ddSlashAt (c :: rest) || hasDDslash rest

/-- `BankStatementReaderAI.detect_format`. -/
def detect_format (text : String) : String :=
  let tu := upperChars text.toList
  if containsSub tu "TRANSACTION STATEMENT".toList && containsSub tu "PHONEPE".toList then
    "phonepe"
  else if containsSub tu "HDFC BANK".toList && containsSub tu "STATEMENT OF ACCOUNT".toList
      && hasDDslash text.toList then
    "hdfc_account_statement"
  else if containsSub tu "HDFC".toList &&
      (containsSub tu "CREDIT CARD".toList || containsSub tu "CREDIT CARD STATEMENT".toList) then
    "hdfc_credit_statement"
  else if containsSub tu "STATEMENT".toList || containsSub tu "ACCOUNT STATEMENT".toList then
    "bank_statement"
  else "unknown"

/-! ### Duplicate grouping and the reconciler
(`api.combine_all_transactions`, lines 542-673)

The Python `dict` with `setdefault(...).append(...)` becomes an ordered
association list; transactions are paired with their enumeration index. -/

/-- Append a value to the bucket of `k`, creating the bucket at the end when
absent (insertion-ordered dict semantics). -/
def addToGroups {α : Type} (gs : List (String × List α)) (k : String) (a : α) :
    List (String × List α) :=
  match gs with
  | [] => [(k, [a])]
  | g :: rest => if g.1 = k then (g.1, g.2 ++ [a]) :: rest else g :: addToGroups rest k a

/-- Fold a keyed list into insertion-ordered buckets. -/
def buildGroups {α : Type} (l : List (String × α)) : List (String × List α) :=
  l.foldl (fun gs ka => addToGroups gs ka.1 ka.2) []

section
variable {α : Type}

/-- The keys of a bucket list. -/
def gKeys (gs : List (String × List α)) : List String := gs.map (fun g => g.1)

/-- Total number of elements across buckets. -/
def gSize (gs : List (String × List α)) : Nat := (gs.map (fun g => g.2.length)).sum

/-- The bucket of a key (empty when absent). -/
def lookupB (k : String) (gs : List (String × List α)) : List α :=
  ((gs.find? (fun g => decide (g.1 = k))).map (fun g => g.2)).getD []

end

/-- `tx.get('date') or tx.get('originalDate') or ''`. -/
def effDateStr (tx : Tx) : String :=
  if tx.date ≠ "" then tx.date else tx.originalDate

/-- The effective numeric amount: the stored `amountValue`, else the amount
string re-normalized (the loop stores the latter back into the dictionary,
so both reads agree). -/
def effAmount (tx : Tx) : Option ℚ :=
  match tx.amountValue with
  | some v => some v
  | none => normalize_amount_value tx.amount

/-- The duplicate-group key of the transaction at index `idx`:
`f"{date_key}:{rounded_amount:.2f}"` when both the normalized date and the
amount are available, else the synthetic `f"__ungrouped__{idx}"`. -/
def groupKeyOf (idx : Nat) (tx : Tx) : String :=
  let dk := (normalize_date_string (effDateStr tx)).getD ""
  match effAmount tx with
  | some v => if dk = "" then "__ungrouped__" ++ toString idx
              else dk ++ ":" ++ format2 (round2 v)
  | none => "__ungrouped__" ++ toString idx

/-- The per-transaction enrichment of the grouping loop: stamp the group
key, the resolved category and its source, and the updated amount value. -/
def enrichTx (custom : List (String × String)) (overrides : String → Option String)
    (idx : Nat) (tx : Tx) : Tx :=
  let key := groupKeyOf idx tx
  let cs := resolve_transaction_category custom key tx overrides
  { tx with
    duplicateGroupKey := key
    category := cs.1
    categorySource := cs.2
    amountValue := effAmount tx }

/-- `api.collect_tags`: first-occurrence union of the members' tag lists. -/
def collect_tags (txs : List Tx) : List String :=
  txs.foldl (fun seen tx =>
    tx.tags.foldl (fun s tag => if tag ∈ s then s else s ++ [tag]) seen) []

/-- First-occurrence deduplication. -/
def firstDedup (l : List String) : List String :=
  l.foldl (fun acc x => if x ∈ acc then acc else acc ++ [x]) []

/-- Insert into an ascending list. -/
def insertAsc (x : String) : List String → List String
  | [] => [x]
  | y :: t => if x ≤ y then x :: y :: t else y :: insertAsc x t

/-- Python `sorted` on strings (ascending). -/
def sortStr (l : List String) : List String := l.foldr insertAsc []

/-- One collapsed (deduplicated) entry. -/
structure Collapsed where
  duplicateGroupKey : String
  duplicateCount : Nat
  date : String
  originalDate : String
  time : String
  description : String
  type : String
  amount : String
  amountValue : Option ℚ
  currency : String
  rawLine : String
  sourceFile : String
  sourceFiles : List String
  tags : List String
  isSubscription : Bool
  subscriptionReason : String
  category : String
  categorySource : String
  members : List (Nat × Tx)
deriving DecidableEq

/-- One reported duplicate group (a key with more than one member). -/
structure DupGroup where
  groupKey : String
  date : String
  amount : Option ℚ
  members : List (Nat × Tx)
deriving DecidableEq

/-- The reconciler's output (transactions, collapsed view, duplicate report
and the summary counters). -/
structure CombineResult where
  transactions : List Tx
  collapsedTransactions : List Collapsed
  duplicateGroups : List DupGroup
  totalTransactions : Nat
  collapsedTransactionCount : Nat
  duplicateGroupCount : Nat
  duplicateTransactionCount : Nat
  duplicatesCollapsed : Nat
deriving DecidableEq

/-- Build the collapsed entry of one bucket (empty buckets, which the loop
skips, yield `none`). -/
def mkCollapsed (g : String × List (Nat × Tx)) : Option Collapsed :=
  match g.2 with
  | [] => none
  | m0 :: _ =>
    let rep := m0.2
    let memberTxs := g.2.map (fun m => m.2)
    let uniqueSources := sortStr (firstDedup ((memberTxs.map (fun t => t.sourceFile)).filter (· ≠ "")))
    let sourceDisplay :=
      match uniqueSources with
      | [] => rep.sourceFile
      | [s] => s
      | _ => "Multiple (" ++ toString uniqueSources.length ++ " files)"
    let reasons := (memberTxs.map (fun t => t.subscriptionReason)).filter (· ≠ "")
    let cats := (memberTxs.map (fun t => t.category)).filter (· ≠ "")
    let srcs := (memberTxs.map (fun t => t.categorySource)).filter (· ≠ "")
    some
      { duplicateGroupKey := g.1
        duplicateCount := g.2.length
        date := rep.date
        originalDate := rep.originalDate
        time := rep.time
        description := rep.description
        type := rep.type
        amount := rep.amount
        amountValue := rep.amountValue
        currency := rep.currency
        rawLine := rep.rawLine
        sourceFile := sourceDisplay
        sourceFiles := if uniqueSources ≠ [] then uniqueSources
                       else if rep.sourceFile ≠ "" then [rep.sourceFile] else []
        tags := collect_tags memberTxs
        isSubscription := memberTxs.any (fun t => t.isSubscription)
        subscriptionReason := (reasons.head?).getD rep.subscriptionReason
        category := (cats.head?).getD rep.category
        categorySource := (srcs.head?).getD rep.categorySource
        members := g.2 }

/-- The reconciliation half of `api.combine_all_transactions`: group the
already-harvested transaction list, build the duplicate report, the
collapsed view and the summary counters. -/
def combine_all_transactions (custom : List (String × String))
    (overrides : String → Option String) (txs : List Tx) : CombineResult :=
  let enriched := txs.enum.map (fun it => (it.1, enrichTx custom overrides it.1 it.2))
  let keyed := enriched.map (fun it => (it.2.duplicateGroupKey, it))
  let groups := buildGroups keyed
  let dupBuckets := groups.filter (fun g => 1 < g.2.length)
  let dupGroupsList := dupBuckets.map (fun g =>
    { groupKey := g.1
      date := ((g.2.head?).map (fun m => m.2.date)).getD ""
      amount := (match g.2.head? with | some m => m.2.amountValue | none => none)
      members := g.2 : DupGroup })
  let collapsed := groups.filterMap mkCollapsed
  { transactions := enriched.map (fun it => it.2)
    collapsedTransactions := collapsed
    duplicateGroups := dupGroupsList
    totalTransactions := enriched.length
    collapsedTransactionCount := collapsed.length
    duplicateGroupCount := dupGroupsList.length
    duplicateTransactionCount := (dupBuckets.map (fun g => g.2.length)).sum
    duplicatesCollapsed := (dupBuckets.map (fun g => g.2.length - 1)).sum }

/-! ### HDFC debit/credit determination
(`BankStatementReaderAI.parse_with_ai`, lines 510-717)

The regex scans `re.finditer(r'\b\d{2}/\d{2}/\d{2}\b', ...)` and
`re.finditer(r'[\d,]+\.\d{2}', ...)` become positional scanners.  Maximal
munch is exact for `[\d,]+` because a shorter run leaves a digit or comma
where the regex then requires `'.'`. -/

/-- Start positions of the non-overlapping `\b\d{2}/\d{2}/\d{2}\b` matches
(each has length 8), given the previous character for the leading `\b`. -/
def findDates (prev : Option Char) (pos : Nat) : List Char → List Nat
  | a :: b :: s1 :: c :: d :: s2 :: e :: f :: rest =>
    if (match prev with | none => true | some p => !isWordChar p) &&
        a.isDigit && b.isDigit && (s1 = '/') && c.isDigit && d.isDigit && (s2 = '/') &&
        e.isDigit && f.isDigit && bAfter rest then
      pos :: findDates (some f) (pos + 8) rest
    else findDates (some a) (pos + 1) (b :: s1 :: c :: d :: s2 :: e :: f :: rest)
  | _ => []

/-- Characters of the class `[\d,]`. -/
def isDigitComma (c : Char) : Bool := c.isDigit || c = ','

/-- `[\d,]+\.\d{2}` at one position: maximal digit/comma run, a dot, two
digits.  Returns the matched characters and the rest. -/
def amtMatchAt (l : List Char) : Option (List Char × List Char) :=
  let run := l.takeWhile isDigitComma
  if run.isEmpty then none
  else
    match l.drop run.length with
    | '.' :: a :: b :: rest =>
      if a.isDigit && b.isDigit then some (run ++ '.' :: [a, b], rest) else none
    | _ => none

theorem amtMatchAt_rest_lt {l m r : List Char} (h : amtMatchAt l = some (m, r)) :
    r.length < l.length ∧ m.length = l.length - r.length := by
  simp only [amtMatchAt] at h
  split at h
  · exact absurd h (by simp)
  · split at h
    next heq =>
      split at h
      · cases h
        have htw : (l.takeWhile isDigitComma).length ≤ l.length :=
          (List.takeWhile_prefix _).length_le
        have hd := congrArg List.length heq
        simp only [List.length_drop, List.length_cons] at hd
        simp only [List.length_append, List.length_cons, List.length_nil]
        omega
      · exact absurd h (by simp)
    · exact absurd h (by simp)

/-- The `[\d,]+\.\d{2}` scan with explicit fuel (one unit per scan
position; the input length always suffices because every step consumes at
least one character). -/
def findAmountsAux : Nat → Nat → List Char → List (Nat × List Char)
  | 0, _, _ => []
  | fuel + 1, pos, l =>
    match l with
    | [] => []
    | c :: rest =>
      match amtMatchAt (c :: rest) with
      | some mr => (pos, mr.1) :: findAmountsAux fuel (pos + mr.1.length) mr.2
      | none => findAmountsAux fuel (pos + 1) rest

/-- All `[\d,]+\.\d{2}` matches with start positions, in scan order. -/
def findAmounts (pos : Nat) (l : List Char) : List (Nat × List Char) :=
  findAmountsAux l.length pos l

/-- Numeric value of a match: `float(x.replace(',', ''))`. -/
def amtValue (m : List Char) : Option ℚ := parseFloat (m.filter (fun c => c ≠ ','))

/-- The amounts after the value date, filtered to the plausible magnitude
range, as (position, matched characters, value) triples.  The source sorts
by position, which is a no-op because the scanner already emits matches in
ascending position order. -/
def amountsAfter (valuePos : Nat) (l : List Char) : List (Nat × List Char × ℚ) :=
  (findAmounts 0 l).filterMap (fun pm =>
    if valuePos < pm.1 then
      match amtValue pm.2 with
      | some v => if 1 ≤ v ∧ v ≤ 10000000 then some (pm.1, pm.2, v) else none
      | none => none
    else none)

/-- The keyword/pattern tables of the two-amount branch. -/
def CREDIT_KEYWORDS_BAL : List String :=
  ["credit", "deposit", "received", "refund", "interest", "salary", "dividend",
   "acrc-", "achc-"]

/-- `credit_patterns` of the two-amount branch. -/
def CREDIT_PATTERNS_BAL : List String := ["rdacr", "tokyc", "comp", "rdacrtokyc"]

/-- Keywords of the single-amount (balance-only) branch. -/
def CREDIT_KEYWORDS_ONE : List String :=
  ["credit", "deposit", "received", "refund", "interest", "achc-"]

/-- Credit keywords of the inner count-based fallback. -/
def CREDIT_KEYWORDS_FB : List String :=
  ["credit", "deposit", "received", "refund", "interest", "salary", "dividend",
   "acrc-", "achc-"]

/-- Debit keywords of the inner count-based fallback. -/
def DEBIT_KEYWORDS_FB : List String :=
  ["debit", "withdrawal", "payment", "upi-", "achd-", "ach d-"]

/-- Credit keywords of the outer keyword fallback. -/
def CREDIT_KEYWORDS_OUT : List String :=
  ["CREDIT", "DEPOSIT", "RECEIVED", "REFUND", "ACH C-", "ACHC-", "INTEREST",
   "SALARY", "DIVIDEND"]

/-- Debit keywords of the outer keyword fallback. -/
def DEBIT_KEYWORDS_OUT : List String :=
  ["DEBIT", "WITHDRAWAL", "PURCHASE", "PAYMENT", "AUTOPAY", "EMI", "UPI-",
   "ACH D-", "ACHD-"]

/-- The transaction-type determination of `parse_with_ai` (lines 510-717),
with the running balance as the explicit pipeline state. -/
def determine_tx_type (raw_line : String) (previous_balance : Option ℚ) : String :=
  let cs := raw_line.toList
  let line_upper := upperChars cs
  let line_lower := lowerChars cs
  let dateStarts := findDates none 0 cs
  let amtMatches := findAmounts 0 cs
  let hdfc : String :=
    if dateStarts.isEmpty then "UNKNOWN"
    else
      let tACH : String :=
        if containsSub line_upper "ACHC-".toList || containsSub line_upper "ACH C-".toList then
          "CREDIT"
        else if containsSub line_upper "ACHD-".toList || containsSub line_upper "ACH D-".toList then
          "DEBIT"
        else "UNKNOWN"
      if tACH ≠ "UNKNOWN" then tACH
      else
        let tMain : String :=
          if 2 ≤ dateStarts.length ∧ 2 ≤ amtMatches.length then
            let valuePos := (dateStarts.get? 1).getD 0 + 8
            let after := amountsAfter valuePos cs
            if 3 ≤ after.length then
              match after with
              | w :: d :: _ =>
                if 0 < w.2.2 then "DEBIT" else if 0 < d.2.2 then "CREDIT" else "UNKNOWN"
              | _ => "UNKNOWN"
            else if after.length = 2 then
              match after with
              | [fst, lst] =>
                let spacing := fst.1 - valuePos
                let is_likely_credit :=
                  CREDIT_KEYWORDS_BAL.any (fun k => containsSub line_lower k.toList) ||
                  CREDIT_PATTERNS_BAL.any (fun k => containsSub line_lower k.toList)
                match previous_balance with
                | some pb =>
                  let balance_change := lst.2.2 - pb
                  if |(|balance_change|) - fst.2.2| < 1 / 100 then
                    if 0 < balance_change then "CREDIT" else "DEBIT"
                  else if 40 < spacing then "CREDIT"
                  else if is_likely_credit then "CREDIT"
                  else "DEBIT"
                | none =>
                  if 40 < spacing then "CREDIT"
                  else if is_likely_credit then "CREDIT"
                  else "DEBIT"
              | _ => "UNKNOWN"
            else if after.length = 1 then
              if CREDIT_KEYWORDS_ONE.any (fun k => containsSub line_lower k.toList) then
                "CREDIT"
              else "DEBIT"
            else "UNKNOWN"
          else "UNKNOWN"
        if tMain ≠ "UNKNOWN" then tMain
        else
          let valid := amtMatches.filterMap (fun pm =>
            match amtValue pm.2 with
            | some v => if 1 ≤ v ∧ v ≤ 10000000 then some v else none
            | none => none)
          if 3 ≤ valid.length then
            let w := (valid.get? (valid.length - 3)).getD 0
            let d := (valid.get? (valid.length - 2)).getD 0
            if 0 < w then "DEBIT" else if 0 < d then "CREDIT" else "UNKNOWN"
          else if valid.length = 2 then
            if CREDIT_KEYWORDS_FB.any (fun k => containsSub line_lower k.toList) then "CREDIT"
            else if DEBIT_KEYWORDS_FB.any (fun k => containsSub line_lower k.toList) then "DEBIT"
            else "DEBIT"
          else "UNKNOWN"
  if hdfc ≠ "UNKNOWN" then hdfc
  else if CREDIT_KEYWORDS_OUT.any (fun k => containsSub line_upper k.toList) then "CREDIT"
  else if DEBIT_KEYWORDS_OUT.any (fun k => containsSub line_upper k.toList) then "DEBIT"
  else "DEBIT"

/-! ### The `parse_with_ai` entry guards (lines 196-218)

Everything after the guards runs the external NER pipeline
(`extract_entities` loads a BERT model), so the remainder of the parse is an
explicit parameter `body`; the guards themselves are embedded exactly. -/

/-- The summary vocabulary rejected before parsing. -/
def SUMMARY_KEYWORDS : List String :=
  ["STATEMENTSUMMARY", "STATEMENT SUMMARY", "OPENINGBALANCE", "OPENING BALANCE",
   "CLOSINGBALANCE", "CLOSING BALANCE"]

/-- `BankStatementReaderAI.parse_with_ai`, parameterized by the NER-dependent
remainder `body`: empty or short (stripped length below 10) lines and
statement-summary lines are rejected before any extraction. -/
def parse_with_ai (body : String → Option ℚ → Option Tx) (raw_line : String)
    (previous_balance : Option ℚ) : Option Tx :=
  if raw_line = "" ∨ (stripChars raw_line.toList).length < 10 then none
  else
    let u := upperStr raw_line
    if SUMMARY_KEYWORDS.any (fun k => strContains u k) then none
    else if (strContains u "DRCOUNT" || strContains u "CRCOUNT") &&
        (strContains u "DEBITS" || strContains u "CREDITS") then none
    else body raw_line previous_balance

/-- A concrete three-transaction run: two duplicates from different files
and one ungroupable transaction. -/
def c1WitnessTxs : List Tx :=
  [{ date := "2024-02-01", amountValue := some 250, sourceFile := "a.pdf",
     description := "STARBUCKS" },
   { date := "2024-02-01", amountValue := some 250, sourceFile := "b.pdf",
     description := "STARBUCKS" },
   { description := "no date" }]

/-- The character alphabet of rendered dates: digits and the three
separators the reader's formats use (an auxiliary predicate for proofs). -/
def isDateCh (c : Char) : Bool := c.isDigit || c = '-' || c = '/' || c = '.'

/-! ## Helper lemmas -/

theorem toNat_ofNat_valid (n : Nat) (h : n.isValidChar) : (Char.ofNat n).toNat = n := by
  unfold Char.ofNat
  rw [dif_pos h]
  unfold Char.ofNatAux
  simp only [Char.toNat]
  change (UInt32.ofNatCore n _).toNat = n
  rfl

theorem char_toNat_injEq {c d : Char} (h : c.toNat = d.toNat) : c = d := by
  apply Char.ext
  simp only [Char.toNat] at h
  exact UInt32.toNat.inj h

theorem toNat_toUpper (c : Char) :
    c.toUpper.toNat = if c.toNat ≥ 97 ∧ c.toNat ≤ 122 then c.toNat - 32 else c.toNat := by
  simp only [Char.toUpper]
  split
  next h => exact toNat_ofNat_valid _ (Or.inl (by omega))
  next h => rfl

theorem toUpper_idem (c : Char) : c.toUpper.toUpper = c.toUpper := by
  apply char_toNat_injEq
  rw [toNat_toUpper c.toUpper]
  by_cases hp : c.toNat ≥ 97 ∧ c.toNat ≤ 122
  · have h1 : c.toUpper.toNat = c.toNat - 32 := by rw [toNat_toUpper, if_pos hp]
    rw [h1, if_neg (by omega)]
  · have h1 : c.toUpper.toNat = c.toNat := by rw [toNat_toUpper, if_neg hp]
    rw [h1, if_neg hp]

theorem isDigit_toNat (c : Char) :
    c.isDigit = (decide (48 ≤ c.toNat) && decide (c.toNat ≤ 57)) := rfl

theorem isDigit_toUpper (c : Char) : c.toUpper.isDigit = c.isDigit := by
  rw [isDigit_toNat, isDigit_toNat, toNat_toUpper]
  by_cases hp : c.toNat ≥ 97 ∧ c.toNat ≤ 122
  · rw [if_pos hp]
    have h1 : decide (48 ≤ c.toNat - 32) = decide (48 ≤ c.toNat) := by
      simp only [decide_eq_decide]; omega
    have h2 : decide (c.toNat - 32 ≤ 57) = decide (c.toNat ≤ 57) := by
      simp only [decide_eq_decide]; omega
    rw [h1, h2]
  · rw [if_neg hp]

theorem toUpper_eq_slash (c : Char) : (c.toUpper = '/') ↔ (c = '/') := by
  constructor
  · intro h
    have hn : c.toUpper.toNat = 47 := by rw [h]; rfl
    rw [toNat_toUpper] at hn
    apply char_toNat_injEq
    split at hn
    · omega
    · rw [hn]; rfl
  · intro h; rw [h]; rfl

theorem upperChars_idem (l : List Char) : upperChars (upperChars l) = upperChars l := by
  induction l with
  | nil => rfl
  | cons c rest ih =>
    simp only [upperChars, List.map_cons] at *
    rw [toUpper_idem]
    exact congrArg _ ih

theorem ddSlashAt_upper (l : List Char) : ddSlashAt (upperChars l) = ddSlashAt l := by
  match l with
  | [] => rfl
  | [_] => rfl
  | [_, _] => rfl
  | [_, _, _] => rfl
  | [_, _, _, _] => rfl
  | [_, _, _, _, _] => rfl
  | [_, _, _, _, _, _] => rfl
  | [_, _, _, _, _, _, _] => rfl
  | a :: b :: c :: d :: e :: f :: g :: h :: rest =>
    simp only [ddSlashAt, upperChars, List.map_cons]
    simp [isDigit_toUpper, toUpper_eq_slash]

theorem hasDDslash_upper (l : List Char) : hasDDslash (upperChars l) = hasDDslash l := by
  induction l with
  | nil => rfl
  | cons c rest ih =>
    have hcons : upperChars (c :: rest) = c.toUpper :: upperChars rest := rfl
    rw [hcons]
    simp only [hasDDslash]
    rw [← hcons, ddSlashAt_upper, ih]

theorem toList_mkString (l : List Char) : String.toList ⟨l⟩ = l := rfl

/-! ## Date/amount rendering and parsing lemmas -/

theorem digitChar_mem (m : Nat) :
    digitChar m ∈ ['0','1','2','3','4','5','6','7','8','9'] := by
  rcases m with _|_|_|_|_|_|_|_|_|n
  · decide
  · decide
  · decide
  · decide
  · decide
  · decide
  · decide
  · decide
  · decide
  · show '9' ∈ _
    decide

theorem digitChar_isDigit (m : Nat) : (digitChar m).isDigit = true := by
  have h := digitChar_mem m
  simp only [List.mem_cons, List.not_mem_nil, or_false] at h
  rcases h with h|h|h|h|h|h|h|h|h|h <;> rw [h] <;> decide

theorem charVal_digitChar (m : Nat) (h : m < 10) : charVal (digitChar m) = m := by
  interval_cases m <;> decide

theorem digitChar_bound (m : Nat) (h1 : 1 ≤ m) (h9 : m ≤ 9) :
    '1' ≤ digitChar m ∧ digitChar m ≤ '9' := by
  interval_cases m <;> exact ⟨by decide, by decide⟩

theorem digitChar_ne_of_not_digit {c : Char} (m : Nat) (hc : ¬ c.isDigit = true) :
    ¬ digitChar m = c := fun h => hc (h ▸ digitChar_isDigit m)

theorem digit_toNat_range {c : Char} (h : c.isDigit = true) :
    48 ≤ c.toNat ∧ c.toNat ≤ 57 := by
  rw [isDigit_toNat] at h
  simp only [Bool.and_eq_true, decide_eq_true_eq] at h
  exact h

theorem digit_ne_of_small {c d : Char} (h : c.isDigit = true) (hd : d.toNat < 48) :
    ¬ c = d := by
  intro he
  have := digit_toNat_range h
  rw [he] at this
  omega

theorem digit_ne_of_large {c d : Char} (h : c.isDigit = true) (hd : 57 < d.toNat) :
    ¬ c = d := by
  intro he
  have := digit_toNat_range h
  rw [he] at this
  omega

theorem digit_not_ws {c : Char} (h : c.isDigit = true) : c.isWhitespace = false := by
  simp only [Char.isWhitespace]
  rw [decide_eq_false (digit_ne_of_small h (by decide)),
      decide_eq_false (digit_ne_of_small h (by decide)),
      decide_eq_false (digit_ne_of_small h (by decide)),
      decide_eq_false (digit_ne_of_small h (by decide))]
  rfl

theorem digitsVal_append_single (l : List Char) (c : Char) :
    digitsVal (l ++ [c]) = 10 * digitsVal l + charVal c := by
  simp only [digitsVal, List.foldl_append, List.foldl_cons, List.foldl_nil]
  omega

theorem natToCharsAux_spec (fuel : Nat) : ∀ n, n < 10 ^ fuel → 0 < fuel →
    natToCharsAux fuel n ≠ [] ∧ (∀ c ∈ natToCharsAux fuel n, c.isDigit = true) ∧
      digitsVal (natToCharsAux fuel n) = n := by
  induction fuel with
  | zero => intro n _ h; omega
  | succ f ih =>
    intro n hn _
    by_cases h10 : n < 10
    · simp only [natToCharsAux, if_pos h10]
      refine ⟨by simp, ?_, ?_⟩
      · intro c hc
        simp only [List.mem_singleton] at hc
        rw [hc]
        exact digitChar_isDigit n
      · simp only [digitsVal, List.foldl_cons, List.foldl_nil]
        rw [charVal_digitChar n h10]
        omega
    · simp only [natToCharsAux, if_neg h10]
      have hf : 0 < f := by
        rcases Nat.eq_zero_or_pos f with h | h
        · subst h; simp at hn; omega
        · exact h
      have hdiv : n / 10 < 10 ^ f := by
        rw [Nat.div_lt_iff_lt_mul (by norm_num)]
        calc n < 10 ^ (f + 1) := hn
        _ = 10 ^ f * 10 := by ring
      obtain ⟨hne, hdig, hval⟩ := ih (n / 10) hdiv hf
      refine ⟨by simp [hne], ?_, ?_⟩
      · intro c hc
        rcases List.mem_append.mp hc with h | h
        · exact hdig c h
        · simp only [List.mem_singleton] at h
          rw [h]
          exact digitChar_isDigit _
      · rw [digitsVal_append_single, hval, charVal_digitChar _ (Nat.mod_lt n (by norm_num))]
        omega

theorem natToChars_spec (n : Nat) :
    natToChars n ≠ [] ∧ (∀ c ∈ natToChars n, c.isDigit = true) ∧
      digitsVal (natToChars n) = n := by
  apply natToCharsAux_spec
  · calc n < 10 ^ n := Nat.lt_pow_self (by norm_num) n
    _ ≤ 10 ^ (n + 1) := Nat.pow_le_pow_right (by norm_num) (by omega)
  · omega

theorem natToCharsAux_irrel (f1 : Nat) : ∀ f2 n, n < 10 ^ f1 → n < 10 ^ f2 →
    0 < f1 → 0 < f2 → natToCharsAux f1 n = natToCharsAux f2 n := by
  induction f1 with
  | zero => intro f2 n _ _ h; omega
  | succ g1 ih =>
    intro f2 n hn1 hn2 _ hf2
    obtain ⟨g2, rfl⟩ : ∃ g, f2 = g + 1 := ⟨f2 - 1, by omega⟩
    simp only [natToCharsAux]
    by_cases h10 : n < 10
    · rw [if_pos h10, if_pos h10]
    · rw [if_neg h10, if_neg h10]
      congr 1
      have hd1 : n / 10 < 10 ^ g1 := by
        rw [Nat.div_lt_iff_lt_mul (by norm_num)]
        calc n < 10 ^ (g1 + 1) := hn1
        _ = 10 ^ g1 * 10 := by ring
      have hd2 : n / 10 < 10 ^ g2 := by
        rw [Nat.div_lt_iff_lt_mul (by norm_num)]
        calc n < 10 ^ (g2 + 1) := hn2
        _ = 10 ^ g2 * 10 := by ring
      have hg1 : 0 < g1 := by
        rcases Nat.eq_zero_or_pos g1 with h | h
        · subst h; simp at hn1; omega
        · exact h
      have hg2 : 0 < g2 := by
        rcases Nat.eq_zero_or_pos g2 with h | h
        · subst h; simp at hn2; omega
        · exact h
      exact ih g2 (n / 10) hd1 hd2 hg1 hg2

theorem natToChars_four (y : Nat) (hy : 1000 ≤ y) (hy2 : y ≤ 9999) :
    natToChars y = [digitChar (y / 1000), digitChar (y / 100 % 10),
      digitChar (y / 10 % 10), digitChar (y % 10)] := by
  have h4 : natToChars y = natToCharsAux 4 y := by
    apply natToCharsAux_irrel
    · calc y < 10 ^ y := Nat.lt_pow_self (by norm_num) y
      _ ≤ 10 ^ (y + 1) := Nat.pow_le_pow_right (by norm_num) (by omega)
    · show y < 10000; omega
    · omega
    · omega
  rw [h4]
  simp only [natToCharsAux]
  rw [if_neg (by omega), if_neg (by omega : ¬ y / 10 < 10),
      if_neg (by rw [Nat.div_div_eq_div_mul]; omega : ¬ y / 10 / 10 < 10),
      if_pos (by rw [Nat.div_div_eq_div_mul, Nat.div_div_eq_div_mul]; omega :
        y / 10 / 10 / 10 < 10)]
  rw [Nat.div_div_eq_div_mul, Nat.div_div_eq_div_mul, Nat.div_div_eq_div_mul]
  norm_num

theorem dateCh_facts {c : Char} (h : isDateCh c = true) :
    c.isWhitespace = false ∧ c ≠ 'S' := by
  simp only [isDateCh, Bool.or_eq_true, decide_eq_true_eq] at h
  rcases h with ((h | h) | h) | h
  · exact ⟨digit_not_ws h, digit_ne_of_large h (by decide)⟩
  · subst h; exact ⟨by decide, by decide⟩
  · subst h; exact ⟨by decide, by decide⟩
  · subst h; exact ⟨by decide, by decide⟩

theorem dropWhile_id (l : List Char) (h : ∀ c ∈ l, c.isWhitespace = false) :
    l.dropWhile Char.isWhitespace = l := by
  cases l with
  | nil => rfl
  | cons c rest =>
    rw [List.dropWhile_cons, if_neg]
    rw [h c (List.mem_cons_self c rest)]
    simp

theorem stripChars_id (l : List Char) (h : ∀ c ∈ l, c.isWhitespace = false) :
    stripChars l = l := by
  unfold stripChars
  rw [dropWhile_id l h, dropWhile_id l.reverse (fun c hc => h c (List.mem_reverse.mp hc)),
    List.reverse_reverse]

theorem collapseWSAux_id (l : List Char) (h : ∀ c ∈ l, c.isWhitespace = false) :
    ∀ b, collapseWSAux b l = l := by
  induction l with
  | nil => intro b; rfl
  | cons c rest ih =>
    intro b
    simp only [collapseWSAux]
    rw [if_neg]
    · rw [ih (fun x hx => h x (List.mem_cons_of_mem c hx)) false]
    · rw [h c (List.mem_cons_self c rest)]
      simp

theorem isOrdPair_left (c c2 : Char)
    (h : c.toLower ≠ 's' ∧ c.toLower ≠ 'n' ∧ c.toLower ≠ 'r' ∧ c.toLower ≠ 't') :
    isOrdPair c c2 = false := by
  simp only [isOrdPair]
  rw [decide_eq_false h.1, decide_eq_false h.2.1, decide_eq_false h.2.2.1,
    decide_eq_false h.2.2.2]
  simp

theorem stripOrdGo_id : ∀ l : List Char, (∀ c ∈ l, isDateCh c = true) →
    ∀ b, stripOrdGo b l = l
  | [], _, _ => rfl
  | [c], _, _ => rfl
  | c :: c2 :: rest, h, b => by
    have hc := h c (List.mem_cons_self c (c2 :: rest))
    have htail : ∀ x ∈ c2 :: rest, isDateCh x = true :=
      fun x hx => h x (List.mem_cons_of_mem c hx)
    simp only [isDateCh, Bool.or_eq_true, decide_eq_true_eq] at hc
    rcases hc with ((hd | hd) | hd) | hd
    · simp only [stripOrdGo, hd, if_true]
      rw [stripOrdGo_id (c2 :: rest) htail true]
    all_goals {
      subst hd
      simp only [stripOrdGo]
      rw [if_neg (by decide), isOrdPair_left _ _ ⟨by decide, by decide, by decide, by decide⟩]
      simp only [Bool.and_false, Bool.false_eq_true, if_false]
      rw [stripOrdGo_id (c2 :: rest) htail false] }

theorem replaceSept_cons (c : Char) (rest : List Char) (hc : c ≠ 'S') :
    replaceSept (c :: rest) = c :: replaceSept rest := by
  rw [replaceSept.eq_def]
  split
  next heq => exact absurd (List.cons.inj heq).1 hc
  next c' rest' heq =>
    obtain ⟨h1, h2⟩ := List.cons.inj heq
    rw [h1, h2]
  next heq => exact absurd heq (by simp)

theorem replaceSept_id (l : List Char) (h : ∀ c ∈ l, c ≠ 'S') : replaceSept l = l := by
  induction l with
  | nil => rfl
  | cons c rest ih =>
    rw [replaceSept_cons c rest (h c (List.mem_cons_self c rest))]
    rw [ih (fun x hx => h x (List.mem_cons_of_mem c hx))]

theorem parseY4_digits (a b c d : Char) (rest : List Char)
    (ha : a.isDigit = true) (hb : b.isDigit = true) (hc : c.isDigit = true)
    (hd : d.isDigit = true) :
    parseY4 (a :: b :: c :: d :: rest) =
      [(1000 * charVal a + 100 * charVal b + 10 * charVal c + charVal d, rest)] := by
  simp [parseY4, ha, hb, hc, hd]

theorem pad2_lo (m : Nat) (h : m < 10) : pad2 m = ['0', digitChar m] := by
  simp [pad2, Nat.div_eq_of_lt h, Nat.mod_eq_of_lt h, digitChar]

theorem parseMM_lo (m : Nat) (h1 : 1 ≤ m) (h9 : m ≤ 9) (r : List Char) :
    parseMM ('0' :: digitChar m :: r) = [(m, r)] := by
  obtain ⟨hb1, hb2⟩ := digitChar_bound m h1 h9
  simp only [parseMM]
  rw [if_pos ⟨hb1, hb2⟩, if_neg (by decide : ¬('1' ≤ '0' ∧ '0' ≤ '9'))]
  rw [charVal_digitChar m (by omega)]
  rfl

theorem parseMM_hi (m : Nat) (h1 : 10 ≤ m) (h2 : m ≤ 12) (r : List Char) :
    parseMM ('1' :: digitChar (m % 10) :: r) = [(m, r), (1, digitChar (m % 10) :: r)] := by
  interval_cases m <;> rfl

theorem parseDD_lo (d : Nat) (h1 : 1 ≤ d) (h9 : d ≤ 9) (r : List Char) :
    parseDD ('0' :: digitChar d :: r) = [(d, r)] := by
  obtain ⟨hb1, hb2⟩ := digitChar_bound d h1 h9
  have hcv := charVal_digitChar d (by omega)
  simp only [parseDD]
  rw [if_neg (show ¬((('0':Char) = '1' ∨ ('0':Char) = '2') ∧ (digitChar d).isDigit = true)
        from fun hx => by rcases hx.1 with h1x | h1x <;> exact absurd h1x (by decide)),
      if_pos (And.intro hb1 hb2),
      if_neg (show ¬(('1':Char) ≤ '0' ∧ ('0':Char) ≤ '9') from by decide),
      hcv]
  rfl

theorem parseDD_mid (d : Nat) (h1 : 10 ≤ d) (h2 : d ≤ 29) (r : List Char) :
    parseDD (digitChar (d / 10) :: digitChar (d % 10) :: r) =
      [(d, r), (d / 10, digitChar (d % 10) :: r)] := by
  have hdig := digitChar_isDigit (d % 10)
  have hcv := charVal_digitChar (d % 10) (by omega)
  have hd10 : d / 10 = 1 ∨ d / 10 = 2 := by omega
  rcases hd10 with h | h
  · rw [h, show digitChar 1 = '1' from rfl]
    simp only [parseDD]
    rw [if_pos (And.intro (Or.inl trivial) hdig),
        if_pos (show ('1':Char) ≤ '1' ∧ ('1':Char) ≤ '9' from by decide), hcv]
    have e1 : charVal '1' = 1 := rfl
    rw [e1, show 10 * 1 + d % 10 = d from by omega]
    rfl
  · rw [h, show digitChar 2 = '2' from rfl]
    simp only [parseDD]
    rw [if_pos (And.intro (Or.inr trivial) hdig),
        if_pos (show ('1':Char) ≤ '2' ∧ ('2':Char) ≤ '9' from by decide), hcv]
    have e1 : charVal '2' = 2 := rfl
    rw [e1, show 10 * 2 + d % 10 = d from by omega]
    rfl

theorem parseDD_hi (d : Nat) (h1 : 30 ≤ d) (h2 : d ≤ 31) (r : List Char) :
    parseDD ('3' :: digitChar (d % 10) :: r) = [(d, r), (3, digitChar (d % 10) :: r)] := by
  interval_cases d <;> rfl

theorem head?_some {α : Type} {l : List α} {a : α} (h : l.head? = some a) :
    ∃ t, l = a :: t := by
  cases l with
  | nil => exact absurd h (by simp)
  | cons x t =>
    simp only [List.head?_cons, Option.some.injEq] at h
    exact ⟨t, by rw [h]⟩

theorem runToks_dd_head (pd : PDate) (d : Nat) (hd : 1 ≤ d) (hd2 : d ≤ 31) :
    (runToks [DTok.dd] pd (pad2 d)).head? = some ({ pd with day := d }, ([] : List Char)) := by
  rcases Nat.lt_or_ge d 10 with hc | hc
  · rw [pad2_lo d hc]
    rw [show ((['0', digitChar d] : List Char) = '0' :: digitChar d :: []) from rfl]
    simp only [runToks, parseTok]
    rw [parseDD_lo d hd (by omega)]
    simp only [List.flatMap_cons, List.flatMap_nil, List.append_nil, runToks, applyTok,
      List.head?_cons]
  · rcases Nat.lt_or_ge d 30 with hc2 | hc2
    · simp only [pad2, runToks, parseTok]
      rw [parseDD_mid d (by omega) (by omega)]
      simp only [List.flatMap_cons, List.flatMap_nil, List.append_nil, runToks, applyTok,
        List.singleton_append, List.head?_cons]
    · simp only [pad2, runToks, parseTok]
      rw [show digitChar (d / 10) = '3' from by rw [show d / 10 = 3 from by omega]; rfl]
      rw [parseDD_hi d (by omega) (by omega)]
      simp only [List.flatMap_cons, List.flatMap_nil, List.append_nil, runToks, applyTok,
        List.singleton_append, List.head?_cons]

theorem runToks_mmdd_head (pd : PDate) (m d : Nat) (hm : 1 ≤ m) (hm2 : m ≤ 12)
    (hd : 1 ≤ d) (hd2 : d ≤ 31) :
    (runToks [DTok.mm, DTok.lit '-', DTok.dd] pd (pad2 m ++ '-' :: pad2 d)).head? =
      some ({ pd with month := m, day := d }, ([] : List Char)) := by
  obtain ⟨tail, htail⟩ := head?_some (runToks_dd_head { pd with month := m } d hd hd2)
  simp only [runToks, parseTok, List.flatMap_cons, List.flatMap_nil, List.append_nil,
    applyTok] at htail
  rcases Nat.lt_or_ge m 10 with hc | hc
  · rw [pad2_lo m hc]
    rw [show ((['0', digitChar m] : List Char) ++ '-' :: pad2 d =
      '0' :: digitChar m :: '-' :: pad2 d) from rfl]
    simp only [runToks, parseTok, List.flatMap_cons, List.flatMap_nil, List.append_nil,
      applyTok]
    rw [parseMM_lo m hm (by omega)]
    simp only [List.flatMap_cons, List.flatMap_nil, List.append_nil, if_true]
    rw [htail]
    simp only [List.head?_cons]
  · have hp : pad2 m ++ '-' :: pad2 d = '1' :: digitChar (m % 10) :: '-' :: pad2 d := by
      simp only [pad2]
      rw [show digitChar (m / 10) = '1' from by rw [show m / 10 = 1 from by omega]; rfl]
      rfl
    rw [hp]
    simp only [runToks, parseTok, List.flatMap_cons, List.flatMap_nil, List.append_nil,
      applyTok]
    rw [parseMM_hi m (by omega) (by omega)]
    simp only [List.flatMap_cons, List.flatMap_nil, List.append_nil, if_true]
    rw [htail]
    simp only [List.cons_append, List.head?_cons]

theorem runToks_iso_head (y m d : Nat) (hy : 1000 ≤ y) (hy2 : y ≤ 9999)
    (hm : 1 ≤ m) (hm2 : m ≤ 12) (hd : 1 ≤ d) (hd2 : d ≤ 31) :
    (runToks [DTok.y4, DTok.lit '-', DTok.mm, DTok.lit '-', DTok.dd] {}
        (natToChars y ++ '-' :: pad2 m ++ '-' :: pad2 d)).head? =
      some (⟨y, m, d⟩, ([] : List Char)) := by
  obtain ⟨tail, htail⟩ :=
    head?_some (runToks_mmdd_head { year := y, month := 1, day := 1 } m d hm hm2 hd hd2)
  simp only [runToks, parseTok, List.flatMap_cons, List.flatMap_nil, List.append_nil,
    applyTok] at htail
  rw [natToChars_four y hy hy2]
  rw [show ([digitChar (y / 1000), digitChar (y / 100 % 10), digitChar (y / 10 % 10),
      digitChar (y % 10)] ++ '-' :: pad2 m ++ '-' :: pad2 d =
    digitChar (y / 1000) :: digitChar (y / 100 % 10) :: digitChar (y / 10 % 10) ::
      digitChar (y % 10) :: '-' :: (pad2 m ++ '-' :: pad2 d)) from by
      simp [List.cons_append]]
  simp only [runToks, parseTok]
  rw [parseY4_digits _ _ _ _ _ (digitChar_isDigit _) (digitChar_isDigit _)
    (digitChar_isDigit _) (digitChar_isDigit _)]
  rw [show 1000 * charVal (digitChar (y / 1000)) + 100 * charVal (digitChar (y / 100 % 10))
      + 10 * charVal (digitChar (y / 10 % 10)) + charVal (digitChar (y % 10)) = y from by
    rw [charVal_digitChar _ (by omega), charVal_digitChar _ (by omega),
        charVal_digitChar _ (by omega), charVal_digitChar _ (by omega)]
    omega]
  simp only [List.flatMap_cons, List.flatMap_nil, List.append_nil, applyTok, if_true]
  rw [htail]
  simp only [List.head?_cons]

theorem daysInMonth_le (y m : Nat) : daysInMonth y m ≤ 31 := by
  unfold daysInMonth
  split
  · split <;> omega
  · split <;> omega

theorem validDate_bounds {pd : PDate} (h : validDate pd = true) :
    1 ≤ pd.year ∧ pd.year ≤ 9999 ∧ 1 ≤ pd.month ∧ pd.month ≤ 12 ∧
      1 ≤ pd.day ∧ pd.day ≤ 31 := by
  simp only [validDate, Bool.and_eq_true, decide_eq_true_eq] at h
  obtain ⟨⟨⟨⟨⟨h1, h2⟩, h3⟩, h4⟩, h5⟩, h6⟩ := h
  exact ⟨h1, h2, h3, h4, h5, le_trans h6 (daysInMonth_le pd.year pd.month)⟩

theorem tryFormat_iso (y m d : Nat) (hy : 1000 ≤ y) (hy2 : y ≤ 9999)
    (hv : validDate ⟨y, m, d⟩ = true) :
    tryFormat ⟨[DTok.y4, DTok.lit '-', DTok.mm, DTok.lit '-', DTok.dd], false⟩
      (natToChars y ++ '-' :: pad2 m ++ '-' :: pad2 d) = some ⟨y, m, d⟩ := by
  obtain ⟨_, _, hm, hm2, hd, hd2⟩ := validDate_bounds hv
  have hh := runToks_iso_head y m d hy hy2 hm hm2 hd hd2
  simp only [tryFormat, hh, hv, and_true, if_pos rfl, if_true]

theorem iso_chars_dateCh (y m d : Nat) :
    ∀ c ∈ natToChars y ++ '-' :: pad2 m ++ '-' :: pad2 d, isDateCh c = true := by
  intro c hc
  rcases List.mem_append.mp hc with h | h
  · rcases List.mem_append.mp h with h1 | h1
    · have := (natToChars_spec y).2.1 c h1
      simp [isDateCh, this]
    · simp only [List.mem_cons] at h1
      rcases h1 with h1 | h1
      · subst h1; decide
      · simp only [pad2, List.mem_cons, List.not_mem_nil, or_false] at h1
        rcases h1 with h1 | h1 <;> subst h1 <;> simp [isDateCh, digitChar_isDigit]
  · simp only [List.mem_cons] at h
    rcases h with h | h
    · subst h; decide
    · simp only [pad2, List.mem_cons, List.not_mem_nil, or_false] at h
      rcases h with h | h <;> subst h <;> simp [isDateCh, digitChar_isDigit]

theorem normalize_date_iso (y m d : Nat) (hy : 1000 ≤ y) (hy2 : y ≤ 9999)
    (hv : validDate ⟨y, m, d⟩ = true) :
    normalize_date_string (renderISO ⟨y, m, d⟩) = some (renderISO ⟨y, m, d⟩) := by
  have hall := iso_chars_dateCh y m d
  set L := natToChars y ++ '-' :: pad2 m ++ '-' :: pad2 d with hLdef
  have hnws : ∀ c ∈ L, c.isWhitespace = false := fun c hc => (dateCh_facts (hall c hc)).1
  have hnS : ∀ c ∈ L, c ≠ 'S' := fun c hc => (dateCh_facts (hall c hc)).2
  have hLne : L ≠ [] := by
    intro h
    have hl := congrArg List.length h
    simp only [hLdef, List.length_append, List.length_cons, List.length_nil] at hl
    omega
  have hri : renderISO ⟨y, m, d⟩ = ⟨L⟩ := rfl
  rw [hri]
  simp only [normalize_date_string, toList_mkString]
  rw [if_neg (show ¬(⟨L⟩ : String) = "" from fun he => hLne (by
        have h2 := congrArg String.toList he
        rwa [toList_mkString] at h2))]
  rw [stripChars_id L hnws, if_neg hLne]
  simp only [stripOrdinals]
  rw [stripOrdGo_id L hall false]
  simp only [collapseWS]
  rw [collapseWSAux_id L hnws false, replaceSept_id L hnS]
  simp only [date_formats, firstFormat]
  rw [tryFormat_iso y m d hy hy2 hv]
  simp only [adjustY2]
  rw [if_neg (show ¬((⟨[DTok.y4, DTok.lit '-', DTok.mm, DTok.lit '-', DTok.dd], false⟩ :
      DFormat).hasY2 = true ∧ (⟨y, m, d⟩ : PDate).year < 1950) from fun hx => by
    exact absurd hx.1 (by decide))]
  rw [hri]

theorem takeWhile_all_append (p : Char → Bool) (l r : List Char)
    (hl : ∀ c ∈ l, p c = true) : (l ++ r).takeWhile p = l ++ r.takeWhile p := by
  induction l with
  | nil => simp
  | cons c t ih =>
    rw [List.cons_append, List.takeWhile_cons, if_pos (hl c (List.mem_cons_self c t)),
      ih (fun x hx => hl x (List.mem_cons_of_mem c hx)), List.cons_append]

theorem dropWhile_all_append (p : Char → Bool) (l r : List Char)
    (hl : ∀ c ∈ l, p c = true) : (l ++ r).dropWhile p = r.dropWhile p := by
  induction l with
  | nil => simp
  | cons c t ih =>
    rw [List.cons_append, List.dropWhile_cons, if_pos (hl c (List.mem_cons_self c t)),
      ih (fun x hx => hl x (List.mem_cons_of_mem c hx))]

theorem round2_div100 (n : ℤ) : round2 ((n : ℚ) / 100) = (n : ℚ) / 100 := by
  unfold round2
  rw [div_mul_cancel₀ _ (by norm_num : (100 : ℚ) ≠ 0), round_intCast]

theorem parseFloat_head_digit (c : Char) (t : List Char) (hc : c.isDigit = true) :
    parseFloat (c :: t) = parseUnsigned (c :: t) := by
  rw [parseFloat.eq_def]
  split
  next heq =>
    obtain ⟨h1, _⟩ := List.cons.inj heq
    exact absurd h1 (digit_ne_of_small hc (by decide))
  next => rfl

theorem fracVal_pad2 (B : Nat) (h : B < 100) : fracVal (pad2 B) = (B : ℚ) / 100 := by
  simp only [pad2, fracVal, List.foldr_cons, List.foldr_nil]
  rw [charVal_digitChar _ (by omega), charVal_digitChar _ (by omega)]
  have hB : B = 10 * (B / 10) + B % 10 := ((Nat.div_add_mod B 10)).symm
  rw [show ((B : ℚ)) = ((10 * (B / 10) + B % 10 : Nat) : ℚ) from by rw [← hB]]
  push_cast
  field_simp
  ring

theorem parseUnsigned_render (A B : Nat) (hB : B < 100) :
    parseUnsigned (natToChars A ++ '.' :: pad2 B) =
      some ((A : ℚ) + (B : ℚ) / 100) := by
  obtain ⟨hne, hdig, hval⟩ := natToChars_spec A
  have hpad : ∀ c ∈ pad2 B, c.isDigit = true := by
    intro c hc
    simp only [pad2, List.mem_cons, List.not_mem_nil, or_false] at hc
    rcases hc with hc | hc <;> subst hc <;> exact digitChar_isDigit _
  have h1 : (natToChars A ++ '.' :: pad2 B).takeWhile Char.isDigit = natToChars A := by
    rw [takeWhile_all_append _ _ _ hdig, List.takeWhile_cons,
        if_neg (show ¬(('.').isDigit = true) from by decide), List.append_nil]
  have h2 : (natToChars A ++ '.' :: pad2 B).dropWhile Char.isDigit = '.' :: pad2 B := by
    rw [dropWhile_all_append _ _ _ hdig, List.dropWhile_cons,
        if_neg (show ¬(('.').isDigit = true) from by decide)]
  have h3 : (pad2 B).takeWhile Char.isDigit = pad2 B := by
    have h := takeWhile_all_append Char.isDigit (pad2 B) [] hpad
    simpa using h
  have h4 : (pad2 B).dropWhile Char.isDigit = [] := by
    have h := dropWhile_all_append Char.isDigit (pad2 B) [] hpad
    simpa using h
  have h5 : (natToChars A).isEmpty = false := by
    cases hc : natToChars A with
    | nil => exact absurd hc hne
    | cons x t => rfl
  simp only [parseUnsigned, h1, h2, h3, h4, h5, List.isEmpty_nil, Bool.false_and,
    Bool.not_false, Bool.true_and, Bool.and_true, if_true]
  rw [hval, fracVal_pad2 B hB]

theorem format2_chars (n : ℤ) : format2 ((n : ℚ) / 100) =
    ⟨(if n < 0 then ['-'] else []) ++ natToChars (n.natAbs / 100) ++
      '.' :: pad2 (n.natAbs % 100)⟩ := by
  simp only [format2]
  rw [div_mul_cancel₀ _ (by norm_num : (100 : ℚ) ≠ 0), round_intCast]

theorem natAbs_split (n : ℤ) :
    ((n.natAbs / 100 : Nat) : ℚ) + ((n.natAbs % 100 : Nat) : ℚ) / 100 =
      ((n.natAbs : Nat) : ℚ) / 100 := by
  rw [show ((n.natAbs : Nat) : ℚ) = ((100 * (n.natAbs / 100) + n.natAbs % 100 : Nat) : ℚ)
      from by rw [Nat.div_add_mod]]
  push_cast
  ring

theorem parseFloat_render (n : ℤ) :
    parseFloat ((if n < 0 then ['-'] else []) ++ natToChars (n.natAbs / 100) ++
      '.' :: pad2 (n.natAbs % 100)) = some ((n : ℚ) / 100) := by
  have hu := parseUnsigned_render (n.natAbs / 100) (n.natAbs % 100)
    (Nat.mod_lt _ (by norm_num))
  rcases lt_or_ge n 0 with hn | hn
  · rw [if_pos hn, List.singleton_append]
    have habs : ((n.natAbs : Nat) : ℚ) = -(n : ℚ) := by
      have h : ((n.natAbs : Nat) : ℤ) = -n := Int.ofNat_natAbs_of_nonpos (le_of_lt hn)
      calc ((n.natAbs : Nat) : ℚ) = (((n.natAbs : Nat) : ℤ) : ℚ) := (Int.cast_natCast _).symm
        _ = ((-n : ℤ) : ℚ) := by rw [h]
        _ = -(n : ℚ) := by push_cast; ring
    calc parseFloat ('-' :: (natToChars (n.natAbs / 100) ++ '.' :: pad2 (n.natAbs % 100)))
        = (parseUnsigned (natToChars (n.natAbs / 100) ++ '.' :: pad2 (n.natAbs % 100))).map
            (fun q => -q) := rfl
      _ = some (-(((n.natAbs / 100 : Nat) : ℚ) + ((n.natAbs % 100 : Nat) : ℚ) / 100)) := by
          rw [hu]; rfl
      _ = some ((n : ℚ) / 100) := by
          rw [natAbs_split, habs]
          ring_nf
  · rw [if_neg (not_lt.mpr hn), List.nil_append]
    have habs : ((n.natAbs : Nat) : ℚ) = (n : ℚ) := by
      have h : ((n.natAbs : Nat) : ℤ) = n := Int.natAbs_of_nonneg hn
      calc ((n.natAbs : Nat) : ℚ) = (((n.natAbs : Nat) : ℤ) : ℚ) := (Int.cast_natCast _).symm
        _ = (n : ℚ) := by rw [h]
    obtain ⟨hne, hdig, _⟩ := natToChars_spec (n.natAbs / 100)
    cases hc : natToChars (n.natAbs / 100) with
    | nil => exact absurd hc hne
    | cons c t =>
      rw [hc] at hu
      rw [List.cons_append] at hu ⊢
      rw [parseFloat_head_digit c _ (hdig c (by
          rw [hc]; exact List.mem_cons_self c t)), hu, natAbs_split, habs]

theorem normalize_amount_render (n : ℤ) :
    normalize_amount_value (format2 ((n : ℚ) / 100)) = some ((n : ℚ) / 100) := by
  rw [format2_chars]
  set L := (if n < 0 then ['-'] else []) ++ natToChars (n.natAbs / 100) ++
    '.' :: pad2 (n.natAbs % 100) with hLdef
  obtain ⟨hne, hdig, _⟩ := natToChars_spec (n.natAbs / 100)
  have h1len : 1 ≤ (natToChars (n.natAbs / 100)).length := by
    cases hc : natToChars (n.natAbs / 100) with
    | nil => exact absurd hc hne
    | cons x t => simp
  have hlen : 4 ≤ L.length := by
    rw [hLdef]
    rcases lt_or_ge n 0 with hn | hn
    · rw [if_pos hn]
      simp only [List.length_append, List.length_cons, pad2, List.length_nil]
      omega
    · rw [if_neg (not_lt.mpr hn)]
      simp only [List.nil_append, List.length_append, List.length_cons, pad2,
        List.length_nil]
      omega
  have hall : ∀ c ∈ L, isAmountChar c = true := by
    intro c hc
    rw [hLdef] at hc
    rcases List.mem_append.mp hc with h | h
    · rcases List.mem_append.mp h with h1 | h1
      · rcases lt_or_ge n 0 with hn | hn
        · rw [if_pos hn] at h1
          simp only [List.mem_singleton] at h1
          subst h1; decide
        · rw [if_neg (not_lt.mpr hn)] at h1
          exact absurd h1 (List.not_mem_nil c)
      · simp [isAmountChar, hdig c h1]
    · simp only [List.mem_cons] at h
      rcases h with h | h
      · subst h; decide
      · simp only [pad2, List.mem_cons, List.not_mem_nil, or_false] at h
        rcases h with h | h <;> subst h <;> simp [isAmountChar, digitChar_isDigit]
  have htl : (⟨L⟩ : String).toList = L := toList_mkString L
  have hlne : ∀ l2 : List Char, l2.length < 4 → ¬L = l2 := by
    intro l2 h2 he
    have h3 := congrArg List.length he
    omega
  have hg1 : ¬(⟨L⟩ : String) = "" := fun h => hlne ("".toList) (by decide) (by
    have h2 := congrArg String.toList h
    rwa [htl] at h2)
  have hg2 : ¬(⟨L⟩ : String) = "N/A" := fun h => hlne ("N/A".toList) (by decide) (by
    have h2 := congrArg String.toList h
    rwa [htl] at h2)
  have hfl : List.filter isAmountChar (⟨L⟩ : String).toList = L := by
    rw [htl]
    exact List.filter_eq_self.mpr hall
  simp only [normalize_amount_value, hfl, decide_eq_false hg1, decide_eq_false hg2,
    decide_eq_false (hlne [] (by norm_num)), decide_eq_false (hlne ['-'] (by norm_num)),
    decide_eq_false (hlne ['.'] (by norm_num)),
    decide_eq_false (hlne ['-', '.'] (by norm_num)),
    Bool.or_false, Bool.false_eq_true, if_false]
  rw [show parseFloat L = some ((n : ℚ) / 100) from by rw [hLdef]; exact parseFloat_render n]
  show some (round2 ((n : ℚ) / 100)) = some ((n : ℚ) / 100)
  rw [round2_div100]

theorem normalize_amount_idem (s : String) (q : ℚ)
    (hq : normalize_amount_value s = some q) :
    normalize_amount_value (format2 q) = some q := by
  obtain ⟨n, rfl⟩ : ∃ n : ℤ, q = (n : ℚ) / 100 := by
    simp only [normalize_amount_value] at hq
    split at hq
    · exact absurd hq (by simp)
    · split at hq
      · exact absurd hq (by simp)
      · split at hq
        next v heq =>
          refine ⟨round (v * 100), ?_⟩
          have h2 := Option.some.inj hq
          rw [← h2]
          rfl
        next => exact absurd hq (by simp)
  exact normalize_amount_render n

theorem flatMap_nil_all {α β : Type} (l : List α) (f : α → List β)
    (h : ∀ x ∈ l, f x = []) : l.flatMap f = [] := List.flatMap_eq_nil_iff.mpr h

theorem parseDD_rest (c1 c2 : Char) (r : List Char) :
    ∀ res ∈ parseDD (c1 :: c2 :: r), res.2 = r ∨ res.2 = c2 :: r := by
  intro res hres
  simp only [parseDD, List.mem_append] at hres
  rcases hres with ((h | h) | h) | h
  · split at h
    next heq =>
      obtain ⟨hc1, hrest⟩ := List.cons.inj heq
      obtain ⟨hc2, hr⟩ := List.cons.inj hrest
      split at h
      · simp only [List.mem_singleton] at h
        subst h hr
        exact Or.inl rfl
      · exact absurd h (List.not_mem_nil res)
    next => exact absurd h (List.not_mem_nil res)
  · split at h
    · simp only [List.mem_singleton] at h
      subst h
      exact Or.inl rfl
    · exact absurd h (List.not_mem_nil res)
  · split at h
    next heq =>
      obtain ⟨hc1, hrest⟩ := List.cons.inj heq
      obtain ⟨hc2, hr⟩ := List.cons.inj hrest
      split at h
      · simp only [List.mem_singleton] at h
        subst h hr
        exact Or.inl rfl
      · exact absurd h (List.not_mem_nil res)
    next => exact absurd h (List.not_mem_nil res)
  · split at h
    · simp only [List.mem_singleton] at h
      subst h
      exact Or.inr rfl
    · exact absurd h (List.not_mem_nil res)

theorem parseMM_rest (c1 c2 : Char) (r : List Char) :
    ∀ res ∈ parseMM (c1 :: c2 :: r), res.2 = r ∨ res.2 = c2 :: r := by
  intro res hres
  simp only [parseMM, List.mem_append] at hres
  rcases hres with (h | h) | h
  · split at h
    next heq =>
      obtain ⟨hc1, hrest⟩ := List.cons.inj heq
      obtain ⟨hc2, hr⟩ := List.cons.inj hrest
      split at h
      · simp only [List.mem_singleton] at h
        subst h hr
        exact Or.inl rfl
      · exact absurd h (List.not_mem_nil res)
    next => exact absurd h (List.not_mem_nil res)
  · split at h
    next heq =>
      obtain ⟨hc1, hrest⟩ := List.cons.inj heq
      obtain ⟨hc2, hr⟩ := List.cons.inj hrest
      split at h
      · simp only [List.mem_singleton] at h
        subst h hr
        exact Or.inl rfl
      · exact absurd h (List.not_mem_nil res)
    next => exact absurd h (List.not_mem_nil res)
  · split at h
    · simp only [List.mem_singleton] at h
      subst h
      exact Or.inr rfl
    · exact absurd h (List.not_mem_nil res)

theorem parseY4_nondigit3 (c1 c2 s : Char) (r : List Char) (hs : s.isDigit = false) :
    parseY4 (c1 :: c2 :: s :: r) = [] := by
  cases r with
  | nil => rfl
  | cons x t =>
    simp only [parseY4]
    rw [if_neg]
    intro hx
    rw [hs] at hx
    exact absurd hx.2.2.1 (by simp)

theorem runToks_lit_fail (c : Char) (ts : List DTok) (pd : PDate) (l : List Char)
    (h : ∀ hd t, l = hd :: t → ¬hd = c) : runToks (DTok.lit c :: ts) pd l = [] := by
  cases l with
  | nil => rfl
  | cons hd t =>
    rw [runToks]
    rw [show parseTok (DTok.lit c) (hd :: t) = [] from by
      simp only [parseTok]
      rw [if_neg (h hd t rfl)]]
    rfl

theorem tryFormat_y4_fail (ts : List DTok) (b : Bool) (c1 c2 s : Char) (r : List Char)
    (hs : s.isDigit = false) :
    tryFormat ⟨DTok.y4 :: ts, b⟩ (c1 :: c2 :: s :: r) = none := by
  simp only [tryFormat, runToks, parseTok, parseY4_nondigit3 c1 c2 s r hs,
    List.flatMap_nil, List.head?_nil]

theorem tryFormat_dd_lit_fail (c : Char) (ts : List DTok) (b : Bool) (c1 c2 : Char)
    (r : List Char) (h2 : ¬c2 = c) (hr : ∀ hd t, r = hd :: t → ¬hd = c) :
    tryFormat ⟨DTok.dd :: DTok.lit c :: ts, b⟩ (c1 :: c2 :: r) = none := by
  have hall : runToks (DTok.dd :: DTok.lit c :: ts) {} (c1 :: c2 :: r) = [] := by
    rw [runToks]
    apply flatMap_nil_all
    intro vr hvr
    rcases parseDD_rest c1 c2 r vr hvr with h | h
    · rw [h]
      exact runToks_lit_fail c ts _ r hr
    · rw [h]
      exact runToks_lit_fail c ts _ (c2 :: r) (fun hd t he => by
        obtain ⟨hh, _⟩ := List.cons.inj he
        rw [← hh]
        exact h2)
  simp only [tryFormat, hall, List.head?_nil]

theorem tryFormat_ddmmy4_fail (s : Char) (b : Bool) (d1 d2 m1 m2 y1 y2 : Char)
    (hs : s.isDigit = false) (hd2 : d2.isDigit = true) (hm2 : m2.isDigit = true) :
    tryFormat ⟨[DTok.dd, DTok.lit s, DTok.mm, DTok.lit s, DTok.y4], b⟩
      (d1 :: d2 :: s :: m1 :: m2 :: s :: y1 :: y2 :: []) = none := by
  have hne : ∀ c : Char, c.isDigit = true → ¬c = s := by
    intro c hc he
    rw [he, hs] at hc
    exact absurd hc (by simp)
  have hall : runToks [DTok.dd, DTok.lit s, DTok.mm, DTok.lit s, DTok.y4] {}
      (d1 :: d2 :: s :: m1 :: m2 :: s :: y1 :: y2 :: []) = [] := by
    rw [runToks]
    apply flatMap_nil_all
    intro vr hvr
    rcases parseDD_rest _ _ _ vr hvr with h | h
    · rw [h, runToks]
      rw [show parseTok (DTok.lit s) (s :: m1 :: m2 :: s :: y1 :: y2 :: []) =
          [(0, m1 :: m2 :: s :: y1 :: y2 :: [])] from by simp [parseTok]]
      simp only [List.flatMap_cons, List.flatMap_nil, List.append_nil]
      rw [runToks]
      apply flatMap_nil_all
      intro vr2 hvr2
      rcases parseMM_rest _ _ _ vr2 hvr2 with h2 | h2
      · rw [h2, runToks]
        rw [show parseTok (DTok.lit s) (s :: y1 :: y2 :: []) = [(0, y1 :: y2 :: [])]
          from by simp [parseTok]]
        simp only [List.flatMap_cons, List.flatMap_nil, List.append_nil]
        rw [runToks]
        rw [show parseTok DTok.y4 (y1 :: y2 :: []) = [] from rfl]
        rfl
      · rw [h2]
        exact runToks_lit_fail s _ _ _ (fun hd t he => by
          obtain ⟨hh, _⟩ := List.cons.inj he
          rw [← hh]
          exact hne m2 hm2)
    · rw [h]
      exact runToks_lit_fail s _ _ _ (fun hd t he => by
        obtain ⟨hh, _⟩ := List.cons.inj he
        rw [← hh]
        exact hne d2 hd2)
  simp only [tryFormat, hall, List.head?_nil]

theorem runToks_y2 (pd : PDate) (yy : Nat) (hyy : yy ≤ 49) :
    runToks [DTok.y2] pd (pad2 yy) =
      [({ pd with year := 2000 + yy }, ([] : List Char))] := by
  simp only [pad2, runToks, parseTok, parseY2]
  rw [if_pos ⟨digitChar_isDigit _, digitChar_isDigit _⟩]
  rw [charVal_digitChar _ (by omega), charVal_digitChar _ (by omega)]
  rw [show 10 * (yy / 10) + yy % 10 = yy from by omega]
  rw [if_pos (show yy ≤ 68 from by omega)]
  simp only [List.flatMap_cons, List.flatMap_nil, List.append_nil, runToks, applyTok]

theorem runToks_mmy2_head (pd : PDate) (m yy : Nat) (s : Char) (hm : 1 ≤ m)
    (hm2 : m ≤ 12) (hyy : yy ≤ 49) :
    (runToks [DTok.mm, DTok.lit s, DTok.y2] pd (pad2 m ++ s :: pad2 yy)).head? =
      some ({ pd with month := m, year := 2000 + yy }, []) := by
  have hy2 := runToks_y2 { pd with month := m } yy hyy
  simp only [runToks, parseTok, List.flatMap_cons, List.flatMap_nil, List.append_nil,
    applyTok] at hy2
  rcases Nat.lt_or_ge m 10 with hc | hc
  · rw [pad2_lo m hc]
    rw [show ((['0', digitChar m] : List Char) ++ s :: pad2 yy =
      '0' :: digitChar m :: s :: pad2 yy) from rfl]
    simp only [runToks, parseTok, List.flatMap_cons, List.flatMap_nil, List.append_nil,
      applyTok]
    rw [parseMM_lo m hm (by omega)]
    simp only [List.flatMap_cons, List.flatMap_nil, List.append_nil, if_true]
    rw [hy2]
    simp only [List.head?_cons]
  · have hp : pad2 m ++ s :: pad2 yy = '1' :: digitChar (m % 10) :: s :: pad2 yy := by
      simp only [pad2]
      rw [show digitChar (m / 10) = '1' from by rw [show m / 10 = 1 from by omega]; rfl]
      rfl
    rw [hp]
    simp only [runToks, parseTok, List.flatMap_cons, List.flatMap_nil, List.append_nil,
      applyTok]
    rw [parseMM_hi m (by omega) (by omega)]
    simp only [List.flatMap_cons, List.flatMap_nil, List.append_nil, if_true]
    rw [hy2]
    simp only [List.singleton_append, List.head?_cons]

theorem runToks_ddmmy2_head (d m yy : Nat) (s : Char) (hd : 1 ≤ d) (hd2 : d ≤ 31)
    (hm : 1 ≤ m) (hm2 : m ≤ 12) (hyy : yy ≤ 49) :
    (runToks [DTok.dd, DTok.lit s, DTok.mm, DTok.lit s, DTok.y2] {}
        (pad2 d ++ s :: pad2 m ++ s :: pad2 yy)).head? =
      some (⟨2000 + yy, m, d⟩, ([] : List Char)) := by
  obtain ⟨tail, htail⟩ := head?_some
    (runToks_mmy2_head { year := 1900, month := 1, day := d } m yy s hm hm2 hyy)
  simp only [runToks, parseTok, List.flatMap_cons, List.flatMap_nil, List.append_nil,
    applyTok] at htail
  have hnorm : pad2 d ++ s :: pad2 m ++ s :: pad2 yy =
      digitChar (d / 10) :: digitChar (d % 10) :: s :: (pad2 m ++ s :: pad2 yy) := by
    simp [pad2, List.cons_append, List.append_assoc]
  rw [hnorm]
  rcases Nat.lt_or_ge d 10 with hc | hc
  · rw [show digitChar (d / 10) = '0' from by rw [show d / 10 = 0 from by omega]; rfl,
      show digitChar (d % 10) = digitChar d from by rw [Nat.mod_eq_of_lt hc]]
    simp only [runToks, parseTok, List.flatMap_cons, List.flatMap_nil, List.append_nil,
      applyTok]
    rw [parseDD_lo d hd (by omega)]
    simp only [List.flatMap_cons, List.flatMap_nil, List.append_nil, if_true]
    rw [htail]
    simp only [List.head?_cons]
  · rcases Nat.lt_or_ge d 30 with hc2 | hc2
    · simp only [runToks, parseTok, List.flatMap_cons, List.flatMap_nil,
        List.append_nil, applyTok]
      rw [parseDD_mid d (by omega) (by omega)]
      simp only [List.flatMap_cons, List.flatMap_nil, List.append_nil, if_true]
      rw [htail]
      simp only [List.singleton_append, List.cons_append, List.head?_cons]
    · rw [show digitChar (d / 10) = '3' from by rw [show d / 10 = 3 from by omega]; rfl]
      simp only [runToks, parseTok, List.flatMap_cons, List.flatMap_nil,
        List.append_nil, applyTok]
      rw [parseDD_hi d (by omega) (by omega)]
      simp only [List.flatMap_cons, List.flatMap_nil, List.append_nil, if_true]
      rw [htail]
      simp only [List.singleton_append, List.cons_append, List.head?_cons]

theorem tryFormat_ddmmy2 (d m yy : Nat) (s : Char) (hyy : yy ≤ 49)
    (hv : validDate ⟨2000 + yy, m, d⟩ = true) :
    tryFormat ⟨[DTok.dd, DTok.lit s, DTok.mm, DTok.lit s, DTok.y2], true⟩
      (pad2 d ++ s :: pad2 m ++ s :: pad2 yy) = some ⟨2000 + yy, m, d⟩ := by
  obtain ⟨_, _, hm, hm2, hd, hd2⟩ := validDate_bounds hv
  have hh := runToks_ddmmy2_head d m yy s hd hd2 hm hm2 hyy
  simp only [tryFormat, hh, hv, and_true, if_pos rfl, if_true]

theorem firstFormat_cons_none (f : DFormat) (fs : List DFormat) (l : List Char)
    (h : tryFormat f l = none) : firstFormat (f :: fs) l = firstFormat fs l := by
  simp [firstFormat, h]

theorem firstFormat_cons_some (f : DFormat) (fs : List DFormat) (l : List Char)
    (pd : PDate) (h : tryFormat f l = some pd) :
    firstFormat (f :: fs) l = some (renderISO (adjustY2 f pd)) := by
  simp [firstFormat, h]

theorem normalize_clean (L : List Char) (hne : L ≠ [])
    (hall : ∀ c ∈ L, isDateCh c = true) :
    normalize_date_string ⟨L⟩ = firstFormat date_formats L := by
  have hnws : ∀ c ∈ L, c.isWhitespace = false := fun c hc => (dateCh_facts (hall c hc)).1
  have hnS : ∀ c ∈ L, c ≠ 'S' := fun c hc => (dateCh_facts (hall c hc)).2
  simp only [normalize_date_string, toList_mkString]
  rw [if_neg (show ¬(⟨L⟩ : String) = "" from fun he => hne (by
        have h2 := congrArg String.toList he
        rwa [toList_mkString] at h2))]
  rw [stripChars_id L hnws, if_neg hne]
  simp only [stripOrdinals]
  rw [stripOrdGo_id L hall false]
  simp only [collapseWS]
  rw [collapseWSAux_id L hnws false, replaceSept_id L hnS]

theorem adjustY2_none (f : DFormat) (pd : PDate) (h : ¬pd.year < 1950) :
    adjustY2 f pd = pd := by
  simp only [adjustY2]
  rw [if_neg (fun hx => h hx.2)]

theorem normalize_ddmmy2 (d m yy : Nat) (s : Char)
    (hsep : s = '/' ∨ s = '-' ∨ s = '.') (hyy : yy < 50)
    (hv : validDate ⟨2000 + yy, m, d⟩ = true) :
    normalize_date_string ⟨pad2 d ++ s :: pad2 m ++ s :: pad2 yy⟩ =
      some (renderISO ⟨2000 + yy, m, d⟩) := by
  have hsdig : s.isDigit = false := by
    rcases hsep with h | h | h <;> subst h <;> decide
  have hsdch : isDateCh s = true := by
    rcases hsep with h | h | h <;> subst h <;> decide
  set L := pad2 d ++ s :: pad2 m ++ s :: pad2 yy with hLdef
  have hnorm3 : L = digitChar (d / 10) :: digitChar (d % 10) :: s ::
      (pad2 m ++ s :: pad2 yy) := by
    simp [hLdef, pad2, List.cons_append, List.append_assoc]
  have hnorm8 : L = digitChar (d / 10) :: digitChar (d % 10) :: s ::
      digitChar (m / 10) :: digitChar (m % 10) :: s ::
      digitChar (yy / 10) :: digitChar (yy % 10) :: [] := by
    simp [hLdef, pad2, List.cons_append, List.append_assoc]
  have hne : L ≠ [] := by
    rw [hnorm3]
    simp
  have hall : ∀ c ∈ L, isDateCh c = true := by
    intro c hc
    rw [hnorm8] at hc
    simp only [List.mem_cons, List.not_mem_nil, or_false] at hc
    rcases hc with h | h | h | h | h | h | h | h <;> subst h <;>
      first
      | exact hsdch
      | simp [isDateCh, digitChar_isDigit]
  have h1 : tryFormat ⟨[DTok.y4, DTok.lit '-', DTok.mm, DTok.lit '-', DTok.dd],
      false⟩ L = none := by
    rw [hnorm3]
    exact tryFormat_y4_fail _ _ _ _ _ _ hsdig
  have hy4f : tryFormat ⟨[DTok.dd, DTok.lit s, DTok.mm, DTok.lit s, DTok.y4],
      false⟩ L = none := by
    rw [hnorm8]
    exact tryFormat_ddmmy4_fail s false _ _ _ _ _ _ hsdig (digitChar_isDigit _)
      (digitChar_isDigit _)
  have hlitf : ∀ (c : Char) (ts : List DTok) (b : Bool), c.isDigit = false → ¬s = c →
      tryFormat ⟨DTok.dd :: DTok.lit c :: ts, b⟩ L = none := by
    intro c ts b hcd hsc
    rw [hnorm3]
    exact tryFormat_dd_lit_fail c ts b _ _ _
      (digitChar_ne_of_not_digit _ (by rw [hcd]; simp))
      (fun hd t he => by
        obtain ⟨hh, _⟩ := List.cons.inj he
        rw [← hh]
        exact hsc)
  have hsucc : tryFormat ⟨[DTok.dd, DTok.lit s, DTok.mm, DTok.lit s, DTok.y2],
      true⟩ L = some ⟨2000 + yy, m, d⟩ := tryFormat_ddmmy2 d m yy s (by omega) hv
  have hadj : ∀ f : DFormat, adjustY2 f ⟨2000 + yy, m, d⟩ = ⟨2000 + yy, m, d⟩ := by
    intro f
    apply adjustY2_none
    intro h2
    have h3 : 2000 + yy < 1950 := h2
    omega
  rw [normalize_clean L hne hall]
  rcases hsep with h | h | h
  · subst h
    simp only [date_formats]
    rw [firstFormat_cons_none _ _ _ h1,
      firstFormat_cons_none _ _ _ hy4f,
      firstFormat_cons_none _ _ _ (hlitf '-' _ _ (by decide) (by decide)),
      firstFormat_cons_none _ _ _ (hlitf '.' _ _ (by decide) (by decide)),
      firstFormat_cons_some _ _ _ _ hsucc, hadj]
  · subst h
    simp only [date_formats]
    rw [firstFormat_cons_none _ _ _ h1,
      firstFormat_cons_none _ _ _ (hlitf '/' _ _ (by decide) (by decide)),
      firstFormat_cons_none _ _ _ hy4f,
      firstFormat_cons_none _ _ _ (hlitf '.' _ _ (by decide) (by decide)),
      firstFormat_cons_none _ _ _ (hlitf '/' _ _ (by decide) (by decide)),
      firstFormat_cons_some _ _ _ _ hsucc, hadj]
  · subst h
    simp only [date_formats]
    rw [firstFormat_cons_none _ _ _ h1,
      firstFormat_cons_none _ _ _ (hlitf '/' _ _ (by decide) (by decide)),
      firstFormat_cons_none _ _ _ (hlitf '-' _ _ (by decide) (by decide)),
      firstFormat_cons_none _ _ _ hy4f,
      firstFormat_cons_none _ _ _ (hlitf '/' _ _ (by decide) (by decide)),
      firstFormat_cons_none _ _ _ (hlitf '-' _ _ (by decide) (by decide)),
      firstFormat_cons_some _ _ _ _ hsucc, hadj]


/-! ## C10: short or empty lines are rejected before extraction -/

/-- C10: for every empty input line, and for every line whose stripped text
is shorter than 10 characters, `parse_with_ai` returns `none` — for every
possible NER-dependent parse remainder `body` and every running-balance
state, i.e. before any field extraction is attempted.  (A Python `None`
line is merged with the empty string in the embedding: the guard treats
both identically.) -/
theorem C10_short_lines_rejected (body : String → Option ℚ → Option Tx)
    (raw_line : String) (previous_balance : Option ℚ)
    (h : raw_line = "" ∨ (stripChars raw_line.toList).length < 10) :
    parse_with_ai body raw_line previous_balance = none := by
  unfold parse_with_ai
  rw [if_pos h]

theorem C10_short_lines_rejected_witness :
    ("" = "" ∨ (stripChars "".toList).length < 10) ∧
    ("short" = "" ∨ (stripChars " short  ".toList).length < 10) ∧
    parse_with_ai (fun r _ => some { rawLine := r }) "" none = none ∧
    parse_with_ai (fun r _ => some { rawLine := r }) " short  " (some 5) = none :=
  ⟨Or.inl rfl, Or.inr (by decide),
   C10_short_lines_rejected _ "" none (Or.inl rfl),
   C10_short_lines_rejected _ " short  " (some 5) (Or.inr (by decide))⟩

/-! ## C6: format classification priority -/

/-- C6: `detect_format` is a pure function of the text applying
case-insensitive substring/pattern tests in a fixed priority order — the
wallet-transfer markers first, then the bank-account markers (institution
name, account-statement marker and a two-digit-year date pattern all
required), then the credit-card markers, then the generic statement
fallback — with the first match winning; text matching none of the marker
sets yields the unknown tag, and uppercasing the input does not change the
result. -/
theorem C6_detect_format_priority (text : String) :
    ((containsSub (upperChars text.toList) "TRANSACTION STATEMENT".toList &&
        containsSub (upperChars text.toList) "PHONEPE".toList) = true →
      detect_format text = "phonepe") ∧
    ((containsSub (upperChars text.toList) "TRANSACTION STATEMENT".toList &&
        containsSub (upperChars text.toList) "PHONEPE".toList) = false →
     (containsSub (upperChars text.toList) "HDFC BANK".toList &&
        containsSub (upperChars text.toList) "STATEMENT OF ACCOUNT".toList &&
        hasDDslash text.toList) = true →
      detect_format text = "hdfc_account_statement") ∧
    ((containsSub (upperChars text.toList) "TRANSACTION STATEMENT".toList &&
        containsSub (upperChars text.toList) "PHONEPE".toList) = false →
     (containsSub (upperChars text.toList) "HDFC BANK".toList &&
        containsSub (upperChars text.toList) "STATEMENT OF ACCOUNT".toList &&
        hasDDslash text.toList) = false →
     (containsSub (upperChars text.toList) "HDFC".toList &&
        (containsSub (upperChars text.toList) "CREDIT CARD".toList ||
         containsSub (upperChars text.toList) "CREDIT CARD STATEMENT".toList)) = true →
      detect_format text = "hdfc_credit_statement") ∧
    ((containsSub (upperChars text.toList) "TRANSACTION STATEMENT".toList &&
        containsSub (upperChars text.toList) "PHONEPE".toList) = false →
     (containsSub (upperChars text.toList) "HDFC BANK".toList &&
        containsSub (upperChars text.toList) "STATEMENT OF ACCOUNT".toList &&
        hasDDslash text.toList) = false →
     (containsSub (upperChars text.toList) "HDFC".toList &&
        (containsSub (upperChars text.toList) "CREDIT CARD".toList ||
         containsSub (upperChars text.toList) "CREDIT CARD STATEMENT".toList)) = false →
     (containsSub (upperChars text.toList) "STATEMENT".toList ||
        containsSub (upperChars text.toList) "ACCOUNT STATEMENT".toList) = true →
      detect_format text = "bank_statement") ∧
    ((containsSub (upperChars text.toList) "TRANSACTION STATEMENT".toList &&
        containsSub (upperChars text.toList) "PHONEPE".toList) = false →
     (containsSub (upperChars text.toList) "HDFC BANK".toList &&
        containsSub (upperChars text.toList) "STATEMENT OF ACCOUNT".toList &&
        hasDDslash text.toList) = false →
     (containsSub (upperChars text.toList) "HDFC".toList &&
        (containsSub (upperChars text.toList) "CREDIT CARD".toList ||
         containsSub (upperChars text.toList) "CREDIT CARD STATEMENT".toList)) = false →
     (containsSub (upperChars text.toList) "STATEMENT".toList ||
        containsSub (upperChars text.toList) "ACCOUNT STATEMENT".toList) = false →
      detect_format text = "unknown") ∧
    detect_format (upperStr text) = detect_format text := by
  refine ⟨?_, ?_, ?_, ?_, ?_, ?_⟩
  · intro h1
    simp only [detect_format, h1]
    rfl
  · intro h1 h2
    simp only [detect_format, h1, h2]
    rfl
  · intro h1 h2 h3
    simp only [detect_format, h1, h2, h3]
    rfl
  · intro h1 h2 h3 h4
    simp only [detect_format, h1, h2, h3, h4]
    rfl
  · intro h1 h2 h3 h4
    simp only [detect_format, h1, h2, h3, h4]
    rfl
  · simp only [detect_format]
    rw [show (upperStr text).toList = upperChars text.toList from rfl]
    rw [upperChars_idem, hasDDslash_upper]

theorem C6_detect_format_priority_witness :
    detect_format "Transaction Statement PhonePe Statement of Account HDFC BANK 01/02/24" =
      "phonepe" ∧
    detect_format "HDFC BANK Statement of Account 01/02/24" = "hdfc_account_statement" ∧
    detect_format "HDFC credit card bill" = "hdfc_credit_statement" ∧
    detect_format "my account statement" = "bank_statement" ∧
    detect_format "random text" = "unknown" :=
  ⟨(C6_detect_format_priority _).1 (by decide),
   (C6_detect_format_priority _).2.1 (by decide) (by decide),
   (C6_detect_format_priority _).2.2.1 (by decide) (by decide) (by decide),
   (C6_detect_format_priority _).2.2.2.1 (by decide) (by decide) (by decide) (by decide),
   (C6_detect_format_priority _).2.2.2.2.1 (by decide) (by decide) (by decide) (by decide)⟩

/-! ## C3 and C9: category resolution -/

theorem mem_get_category_options (custom : List (String × String))
    {d : String × String} (hd : d ∈ DEFAULT_CATEGORY_DEFS) :
    d ∈ get_category_options custom := by
  unfold get_category_options
  have key : ∀ (l : List (String × String)) (acc : List (String × String)), d ∈ acc →
      d ∈ l.foldl (fun opts c => if opts.any (fun o => o.1 = c.1) then opts else opts ++ [c]) acc := by
    intro l
    induction l with
    | nil => intro acc h; exact h
    | cons c rest ih =>
      intro acc h
      simp only [List.foldl_cons]
      apply ih
      split
      · exact h
      · exact List.mem_append_left _ h
  exact key custom _ hd

theorem others_mem_keys (custom : List (String × String)) :
    "others" ∈ category_label_keys custom := by
  unfold category_label_keys
  exact List.mem_map.mpr ⟨("others", "Others"), mem_get_category_options custom (by decide), rfl⟩

/-- C3: a stored override whose value is a currently valid category slug is
returned with source `manual` regardless of the transaction's content, while
a stored override that is not a valid slug is treated as absent: resolution
yields exactly what it yields with no override present (the
auto-categorization fallthrough). -/
theorem C3_manual_override_wins (custom : List (String × String)) (group_key : String)
    (tx : Tx) (overrides : String → Option String) (v : String)
    (hv : overrides group_key = some v) :
    ((category_label_keys custom).contains v = true →
      resolve_transaction_category custom group_key tx overrides = (v, "manual")) ∧
    ((category_label_keys custom).contains v = false →
      resolve_transaction_category custom group_key tx overrides =
        resolve_transaction_category custom group_key tx (fun _ => none)) := by
  constructor
  · intro hvalid
    simp only [resolve_transaction_category, hv, hvalid, if_true]
  · intro hinvalid
    simp only [resolve_transaction_category, hv, hinvalid, Bool.false_eq_true, if_false]

theorem C3_manual_override_wins_witness :
    ((fun k => if k = "g1" then some "fuel" else none) "g1" = some "fuel") ∧
    ((category_label_keys []).contains "fuel" = true) ∧
    resolve_transaction_category [] "g1" { description := "SWIGGY ORDER" }
      (fun k => if k = "g1" then some "fuel" else none) = ("fuel", "manual") ∧
    ((category_label_keys []).contains "bogus" = false) ∧
    resolve_transaction_category [] "g1" { description := "SWIGGY ORDER" }
      (fun k => if k = "g1" then some "bogus" else none) =
      resolve_transaction_category [] "g1" { description := "SWIGGY ORDER" } (fun _ => none) :=
  ⟨rfl, by decide,
   (C3_manual_override_wins [] "g1" { description := "SWIGGY ORDER" } _ "fuel" rfl).1 (by decide),
   by decide,
   (C3_manual_override_wins [] "g1" { description := "SWIGGY ORDER" } _ "bogus" rfl).2 (by decide)⟩

/-- C9: the category returned by `resolve_transaction_category` is always a
slug of the current category definition set (built-in plus custom): a manual
override is only returned when its value is in the label map (and then the
source is `manual` and the returned slug is exactly the stored override),
and in the auto path a result outside the label map is replaced by
`others`, which is itself always a valid slug. -/
theorem C9_resolved_category_valid (custom : List (String × String)) (group_key : String)
    (tx : Tx) (overrides : String → Option String) :
    (resolve_transaction_category custom group_key tx overrides).1 ∈
      category_label_keys custom ∧
    ((resolve_transaction_category custom group_key tx overrides).2 = "manual" →
      overrides group_key =
        some (resolve_transaction_category custom group_key tx overrides).1 ∧
      (resolve_transaction_category custom group_key tx overrides).1 ∈
        category_label_keys custom) ∧
    ((overrides group_key = none ∨
        (∃ v, overrides group_key = some v ∧
          (category_label_keys custom).contains v = false)) →
      resolve_transaction_category custom group_key tx overrides =
        ((if (category_label_keys custom).contains (auto_categorize_transaction tx) then
            auto_categorize_transaction tx else "others"), "auto")) := by
  have contains_mem : ∀ {l : List String} {a : String}, l.contains a = true → a ∈ l := by
    intro l a h
    simpa using h
  have hman_eq : ∀ v, overrides group_key = some v →
      (category_label_keys custom).contains v = true →
      resolve_transaction_category custom group_key tx overrides = (v, "manual") := by
    intro v hv hc
    unfold resolve_transaction_category
    rw [hv]
    simp only [hc, if_true]
  have hauto_eq : (overrides group_key = none ∨
      (∃ v, overrides group_key = some v ∧
        (category_label_keys custom).contains v = false)) →
      resolve_transaction_category custom group_key tx overrides =
        ((if (category_label_keys custom).contains (auto_categorize_transaction tx) then
            auto_categorize_transaction tx else "others"), "auto") := by
    intro h
    unfold resolve_transaction_category
    rcases h with hnone | ⟨v, hv, hinv⟩
    · rw [hnone]
    · rw [hv]
      simp only [hinv, Bool.false_eq_true, if_false]
  have hauto_mem : (if (category_label_keys custom).contains (auto_categorize_transaction tx) then
      auto_categorize_transaction tx else "others") ∈ category_label_keys custom := by
    split
    next hc => exact contains_mem hc
    next => exact others_mem_keys custom
  refine ⟨?_, ?_, hauto_eq⟩
  · cases hov : overrides group_key with
    | none => rw [hauto_eq (Or.inl hov)]; exact hauto_mem
    | some v =>
      by_cases hc : (category_label_keys custom).contains v = true
      · rw [hman_eq v hov hc]; exact contains_mem hc
      · rw [hauto_eq (Or.inr ⟨v, hov, by simpa using hc⟩)]; exact hauto_mem
  · intro hman
    cases hov : overrides group_key with
    | none =>
      rw [hauto_eq (Or.inl hov)] at hman
      simp at hman
    | some v =>
      by_cases hc : (category_label_keys custom).contains v = true
      · rw [hman_eq v hov hc]
        exact ⟨rfl, contains_mem hc⟩
      · rw [hauto_eq (Or.inr ⟨v, hov, by simpa using hc⟩)] at hman
        simp at hman

theorem C9_resolved_category_valid_witness :
    ((resolve_transaction_category [("gaming", "Gaming")] "g" { type := "CREDIT" }
        (fun _ => some "gaming")).2 = "manual") ∧
    ((fun _ => some "nope") "g" = some "nope" ∧
      (category_label_keys [("gaming", "Gaming")]).contains "nope" = false) ∧
    resolve_transaction_category [("gaming", "Gaming")] "g" { type := "CREDIT" }
      (fun _ => some "nope") = ("income", "auto") :=
  ⟨by decide,
   ⟨rfl, by decide⟩,
   by
    have h := (C9_resolved_category_valid [("gaming", "Gaming")] "g" { type := "CREDIT" }
      (fun _ => some "nope")).2.2 (Or.inr ⟨"nope", rfl, by decide⟩)
    rw [h]
    decide⟩

/-! ## C7: NETFLIX subscription detection -/

/-- C7 counterexample: the claim says every transaction whose detection text
contains `"NETFLIX"` gets reason `"merchant:netflix"`, but the keyword scan
runs first: a description `"NETFLIX SUBSCRIPTION"` contains `"NETFLIX"` yet
is detected with reason `"keyword:subscription"`. -/
theorem C7_netflix_reason_counterexample :
    strContains (prepare_detection_text { description := "NETFLIX SUBSCRIPTION" })
      "NETFLIX" = true ∧
    detect_subscription { description := "NETFLIX SUBSCRIPTION" } =
      (true, "keyword:subscription") ∧
    ("keyword:subscription" : String) ≠ "merchant:netflix" :=
  ⟨by decide, by decide, by decide⟩

/-- C7 (amended): for every transaction whose combined detection text
contains `"NETFLIX"`, subscription detection returns `isSubscription = true`
and the transaction's tag list afterwards contains `"subscription"`; the
reason string is `"merchant:netflix"` provided no subscription keyword and
no subscription regex matches first (the merchant scan runs third). -/
theorem C7_netflix_subscription (tx : Tx)
    (hn : strContains (prepare_detection_text tx) "NETFLIX" = true) :
    (detect_subscription tx).1 = true ∧
    "subscription" ∈ (apply_subscription tx).tags ∧
    (SUBSCRIPTION_KEYWORDS.all
        (fun kw => !strContains (prepare_detection_text tx) kw) = true →
     SUBSCRIPTION_REGEXES.all (fun pr => !pr.1 (prepare_detection_text tx)) = true →
     detect_subscription tx = (true, "merchant:netflix")) := by
  have htext : ¬(prepare_detection_text tx = "") := by
    intro h
    rw [h] at hn
    exact absurd hn (by decide)
  have h1 : (detect_subscription tx).1 = true := by
    simp only [detect_subscription]
    rw [if_neg htext]
    rcases hk : (SUBSCRIPTION_KEYWORDS.find?
        fun kw => strContains (prepare_detection_text tx) kw) with _ | kw
    · rcases hr : (SUBSCRIPTION_REGEXES.find?
          fun pr => pr.1 (prepare_detection_text tx)) with _ | pr
      · rcases hm : (SUBSCRIPTION_MERCHANTS.find?
            fun m => strContains (prepare_detection_text tx) m) with _ | m
        · rw [List.find?_eq_none] at hm
          exact absurd hn (by simpa using hm "NETFLIX" (by decide))
        · simp [hk, hr, hm]
      · simp [hk, hr]
    · simp [hk]
  refine ⟨h1, ?_, ?_⟩
  · simp only [apply_subscription, h1, if_true]
    split
    · assumption
    · simp
  · intro hkw hrx
    simp only [detect_subscription]
    rw [if_neg htext]
    have hk : SUBSCRIPTION_KEYWORDS.find?
        (fun kw => strContains (prepare_detection_text tx) kw) = none := by
      rw [List.find?_eq_none]
      intro x hx
      simpa using (List.all_eq_true.mp hkw) x hx
    have hr : SUBSCRIPTION_REGEXES.find?
        (fun pr => pr.1 (prepare_detection_text tx)) = none := by
      rw [List.find?_eq_none]
      intro x hx
      simpa using (List.all_eq_true.mp hrx) x hx
    have hm : SUBSCRIPTION_MERCHANTS.find?
        (fun m => strContains (prepare_detection_text tx) m) = some "NETFLIX" := by
      unfold SUBSCRIPTION_MERCHANTS
      exact List.find?_cons_of_pos _ hn
    rw [hk, hr, hm]
    rfl

theorem C7_netflix_subscription_witness :
    strContains (prepare_detection_text { description := "Paid to NETFLIX COM" })
      "NETFLIX" = true ∧
    (detect_subscription { description := "Paid to NETFLIX COM" }).1 = true ∧
    "subscription" ∈ (apply_subscription { description := "Paid to NETFLIX COM" }).tags ∧
    detect_subscription { description := "Paid to NETFLIX COM" } =
      (true, "merchant:netflix") := by
  have h := C7_netflix_subscription { description := "Paid to NETFLIX COM" } (by decide)
  exact ⟨by decide, h.1, h.2.1, h.2.2 (by decide) (by decide)⟩

/-! ## C2: running-balance delta classification -/

theorem amountsAfter_eq_filter (vp : Nat) (l : List Char) :
    amountsAfter vp l =
      ((findAmounts 0 l).filter (fun pm => decide (vp < pm.1))).filterMap
        (fun pm =>
          match amtValue pm.2 with
          | some v => if 1 ≤ v ∧ v ≤ 10000000 then some (pm.1, pm.2, v) else none
          | none => none) := by
  unfold amountsAfter
  generalize findAmounts 0 l = L
  induction L with
  | nil => rfl
  | cons x xs ih =>
    by_cases h : vp < x.1
    · cases hx : amtValue x.2 with
      | none => simp [List.filterMap_cons, List.filter_cons, h, hx, ih]
      | some v =>
        by_cases hb : 1 ≤ v ∧ v ≤ 10000000
        · simp [List.filterMap_cons, List.filter_cons, h, hx, hb, ih]
        · simp [List.filterMap_cons, List.filter_cons, h, hx, hb, ih]
    · simp [List.filterMap_cons, List.filter_cons, h, ih]

/-- C2: in the column-based (HDFC) bank format — a block with at least two
date tokens and two decimal amounts, exactly two plausible amounts after
the value date (the candidate amount and the new balance), and no explicit
ACH credit/debit instrument code — when a previous balance is carried from
the last successfully parsed block and `|newBalance − previousBalance|`
matches the candidate amount within the 0.01 epsilon, a positive delta
classifies the block as Credit and a negative delta as Debit. -/
theorem C2_balance_delta_classification (raw_line : String) (pb : ℚ)
    (p1 p2 : Nat) (s1 s2 : List Char) (a b : ℚ)
    (hachc : containsSub (upperChars raw_line.toList) "ACHC-".toList = false)
    (hachcs : containsSub (upperChars raw_line.toList) "ACH C-".toList = false)
    (hachd : containsSub (upperChars raw_line.toList) "ACHD-".toList = false)
    (hachds : containsSub (upperChars raw_line.toList) "ACH D-".toList = false)
    (hd : 2 ≤ (findDates none 0 raw_line.toList).length)
    (ha : 2 ≤ (findAmounts 0 raw_line.toList).length)
    (hscan : (findAmounts 0 raw_line.toList).filter
        (fun pm =>
          decide ((((findDates none 0 raw_line.toList).get? 1).getD 0 + 8) < pm.1)) =
      [(p1, s1), (p2, s2)])
    (hv1 : amtValue s1 = some a) (hb1 : 1 ≤ a ∧ a ≤ 10000000)
    (hv2 : amtValue s2 = some b) (hb2 : 1 ≤ b ∧ b ≤ 10000000)
    (hmatch : |(|b - pb|) - a| < 1 / 100) :
    (0 < b - pb → determine_tx_type raw_line (some pb) = "CREDIT") ∧
    (b - pb < 0 → determine_tx_type raw_line (some pb) = "DEBIT") := by
  have hne : (findDates none 0 raw_line.toList).isEmpty = false := by
    cases hfd : findDates none 0 raw_line.toList with
    | nil => rw [hfd] at hd; simp at hd
    | cons x xs => rfl
  have hafter : amountsAfter (((findDates none 0 raw_line.toList).get? 1).getD 0 + 8)
      raw_line.toList = [(p1, s1, a), (p2, s2, b)] := by
    rw [amountsAfter_eq_filter, hscan]
    simp only [List.filterMap_cons, List.filterMap_nil, hv1, hv2]
    rw [if_pos hb1, if_pos hb2]
  constructor
  · intro hpos
    have hpb : pb < b := by linarith
    simp only [determine_tx_type, hne, Bool.false_eq_true, if_false, hachc, hachcs,
      hachd, hachds, Bool.or_self, if_pos (And.intro hd ha), hafter]
    simp only [List.length_cons, List.length_nil, hmatch, if_true]
    simp [hpb]
  · intro hneg
    have hpb : ¬(pb < b) := by linarith
    simp only [determine_tx_type, hne, Bool.false_eq_true, if_false, hachc, hachcs,
      hachd, hachds, Bool.or_self, if_pos (And.intro hd ha), hafter]
    simp only [List.length_cons, List.length_nil, hmatch, if_true]
    simp [hpb]

theorem C2_balance_delta_classification_witness :
    determine_tx_type "01/02/24 SOMESHOP XYZ 02/02/24 500.00 10250.00" (some 9750) =
      "CREDIT" := by
  have h := C2_balance_delta_classification
    "01/02/24 SOMESHOP XYZ 02/02/24 500.00 10250.00" 9750
    31 38 "500.00".toList "10250.00".toList 500 10250
    (by decide) (by decide) (by decide) (by decide)
    (by decide) (by decide) (by decide)
    (by simp [amtValue, parseFloat, parseUnsigned, digitsVal, fracVal, charVal])
    (by norm_num)
    (by simp [amtValue, parseFloat, parseUnsigned, digitsVal, fracVal, charVal])
    (by norm_num)
    (by norm_num)
  exact h.1 (by norm_num)

/-! ## Grouping lemmas for the reconciler -/

section Grouping

variable {α : Type}

theorem gSize_addToGroups (gs : List (String × List α)) (k : String) (a : α) :
    gSize (addToGroups gs k a) = gSize gs + 1 := by
  induction gs with
  | nil => simp [addToGroups, gSize]
  | cons g rest ih =>
    simp only [addToGroups]
    split
    · simp only [gSize, List.map_cons, List.sum_cons, List.length_append, List.length_cons,
        List.length_nil]
      omega
    · simp only [gSize, List.map_cons, List.sum_cons] at ih ⊢
      omega

theorem gSize_foldl (l : List (String × α)) :
    ∀ gs : List (String × List α),
      gSize (l.foldl (fun gs ka => addToGroups gs ka.1 ka.2) gs) = gSize gs + l.length := by
  induction l with
  | nil => intro gs; simp
  | cons x xs ih =>
    intro gs
    simp only [List.foldl_cons, List.length_cons]
    rw [ih, gSize_addToGroups]
    omega

theorem gSize_buildGroups (l : List (String × α)) : gSize (buildGroups l) = l.length := by
  unfold buildGroups
  rw [gSize_foldl]
  simp [gSize]

theorem gKeys_addToGroups (gs : List (String × List α)) (k : String) (a : α) :
    gKeys (addToGroups gs k a) =
      if k ∈ gKeys gs then gKeys gs else gKeys gs ++ [k] := by
  induction gs with
  | nil => simp [addToGroups, gKeys]
  | cons g rest ih =>
    simp only [addToGroups]
    by_cases heq : g.1 = k
    · rw [if_pos heq]
      simp only [gKeys, List.map_cons, List.mem_cons]
      rw [if_pos (Or.inl heq.symm)]
    · rw [if_neg heq]
      simp only [gKeys, List.map_cons, List.mem_cons] at ih ⊢
      rw [ih]
      by_cases hmem : k ∈ List.map (fun g => g.1) rest
      · rw [if_pos hmem, if_pos (Or.inr hmem)]
      · rw [if_neg hmem,
          if_neg (by
            intro hor
            rcases hor with h | h
            · exact heq h.symm
            · exact hmem h)]
        simp

theorem lookupB_cons (k : String) (g : String × List α) (gs : List (String × List α)) :
    lookupB k (g :: gs) = if g.1 = k then g.2 else lookupB k gs := by
  unfold lookupB
  by_cases h : g.1 = k
  · rw [List.find?_cons_of_pos _ (by simpa using h), if_pos h]
    rfl
  · rw [List.find?_cons_of_neg _ (by simpa using h), if_neg h]

theorem lookupB_addToGroups (gs : List (String × List α)) (k k' : String) (a : α) :
    lookupB k (addToGroups gs k' a) =
      if k' = k then lookupB k gs ++ [a] else lookupB k gs := by
  induction gs with
  | nil =>
    simp only [addToGroups]
    rw [lookupB_cons]
    by_cases h : k' = k
    · simp [lookupB, h]
    · simp [lookupB, h]
  | cons g rest ih =>
    simp only [addToGroups]
    by_cases hkk : k' = k
    · subst hkk
      rw [if_pos rfl]
      by_cases heq : g.1 = k'
      · rw [if_pos heq, lookupB_cons, lookupB_cons, if_pos heq, if_pos heq]
      · rw [if_neg heq, lookupB_cons, lookupB_cons, if_neg heq, if_neg heq, ih, if_pos rfl]
    · rw [if_neg hkk]
      by_cases heq : g.1 = k'
      · rw [if_pos heq]
        have hgk : ¬(g.1 = k) := fun h => hkk (heq.symm.trans h)
        rw [lookupB_cons, lookupB_cons, if_neg hgk, if_neg hgk]
      · rw [if_neg heq, lookupB_cons, lookupB_cons, ih, if_neg hkk]

theorem lookupB_foldl (k : String) (l : List (String × α)) :
    ∀ gs : List (String × List α),
      lookupB k (l.foldl (fun gs ka => addToGroups gs ka.1 ka.2) gs) =
        lookupB k gs ++ (l.filter (fun ka => decide (ka.1 = k))).map (fun ka => ka.2) := by
  induction l with
  | nil => intro gs; simp
  | cons x xs ih =>
    intro gs
    simp only [List.foldl_cons, List.filter_cons]
    rw [ih, lookupB_addToGroups]
    by_cases h : x.1 = k
    · simp [h]
    · simp [h]

theorem lookupB_buildGroups (k : String) (l : List (String × α)) :
    lookupB k (buildGroups l) =
      (l.filter (fun ka => decide (ka.1 = k))).map (fun ka => ka.2) := by
  unfold buildGroups
  rw [lookupB_foldl]
  simp [lookupB, List.find?]

theorem gKeys_nodup_addToGroups (gs : List (String × List α)) (k : String) (a : α)
    (h : (gKeys gs).Nodup) : (gKeys (addToGroups gs k a)).Nodup := by
  rw [gKeys_addToGroups]
  split
  · exact h
  next hmem =>
    rw [List.nodup_append]
    refine ⟨h, List.nodup_singleton _, ?_⟩
    intro x hx hx2
    simp only [List.mem_singleton] at hx2
    subst hx2
    exact hmem hx

theorem gKeys_nodup_foldl (l : List (String × α)) :
    ∀ gs : List (String × List α), (gKeys gs).Nodup →
      (gKeys (l.foldl (fun gs ka => addToGroups gs ka.1 ka.2) gs)).Nodup := by
  induction l with
  | nil => intro gs h; exact h
  | cons x xs ih =>
    intro gs h
    exact ih _ (gKeys_nodup_addToGroups gs x.1 x.2 h)

theorem gKeys_nodup_buildGroups (l : List (String × α)) :
    (gKeys (buildGroups l)).Nodup := by
  unfold buildGroups
  exact gKeys_nodup_foldl l [] (by simp [gKeys])

theorem lookupB_of_mem {gs : List (String × List α)} (hnd : (gKeys gs).Nodup)
    {g : String × List α} (hg : g ∈ gs) : lookupB g.1 gs = g.2 := by
  induction gs with
  | nil => simp at hg
  | cons g0 rest ih =>
    rcases List.mem_cons.mp hg with heq | hmem
    · subst heq
      rw [lookupB_cons, if_pos rfl]
    · have hnd2 := hnd
      simp only [gKeys, List.map_cons, List.nodup_cons] at hnd2
      have hnd' : (gKeys rest).Nodup := hnd2.2
      have hne : ¬(g0.1 = g.1) := by
        intro h
        apply hnd2.1
        rw [h]
        exact List.mem_map.mpr ⟨g, hmem, rfl⟩
      rw [lookupB_cons, if_neg hne]
      exact ih hnd' hmem

theorem mem_gKeys_addToGroups (gs : List (String × List α)) (k k' : String) (a : α) :
    (k ∈ gKeys (addToGroups gs k' a)) ↔ (k ∈ gKeys gs ∨ k = k') := by
  rw [gKeys_addToGroups]
  split
  next hmem =>
    constructor
    · exact Or.inl
    · rintro (h | rfl)
      · exact h
      · exact hmem
  next hmem => simp [or_comm]

theorem mem_gKeys_foldl (k : String) (l : List (String × α)) :
    ∀ gs : List (String × List α),
      (k ∈ gKeys (l.foldl (fun gs ka => addToGroups gs ka.1 ka.2) gs)) ↔
        (k ∈ gKeys gs ∨ k ∈ l.map (fun ka => ka.1)) := by
  induction l with
  | nil => intro gs; simp
  | cons x xs ih =>
    intro gs
    simp only [List.foldl_cons, List.map_cons, List.mem_cons]
    rw [ih, mem_gKeys_addToGroups]
    tauto

theorem mem_gKeys_buildGroups (k : String) (l : List (String × α)) :
    (k ∈ gKeys (buildGroups l)) ↔ k ∈ l.map (fun ka => ka.1) := by
  unfold buildGroups
  rw [mem_gKeys_foldl]
  simp [gKeys]

theorem gKeys_eq_firstDedup (l : List (String × α)) :
    gKeys (buildGroups l) = firstDedup (l.map (fun ka => ka.1)) := by
  unfold buildGroups firstDedup
  have key : ∀ (l' : List (String × α)) (gs : List (String × List α)),
      gKeys (l'.foldl (fun gs ka => addToGroups gs ka.1 ka.2) gs) =
        (l'.map (fun ka => ka.1)).foldl
          (fun acc x => if x ∈ acc then acc else acc ++ [x]) (gKeys gs) := by
    intro l'
    induction l' with
    | nil => intro gs; simp
    | cons x xs ih =>
      intro gs
      simp only [List.foldl_cons, List.map_cons]
      rw [ih, gKeys_addToGroups]
  rw [key]
  simp [gKeys]

theorem bucket_nonempty_addToGroups (gs : List (String × List α)) (k : String) (a : α)
    (h : ∀ g ∈ gs, g.2 ≠ []) : ∀ g ∈ addToGroups gs k a, g.2 ≠ [] := by
  induction gs with
  | nil =>
    intro g hg
    simp only [addToGroups, List.mem_singleton] at hg
    subst hg
    simp
  | cons g0 rest ih =>
    intro g hg
    simp only [addToGroups] at hg
    split at hg
    · rcases List.mem_cons.mp hg with heq | hmem
      · subst heq; simp
      · exact h g (List.mem_cons_of_mem _ hmem)
    · rcases List.mem_cons.mp hg with heq | hmem
      · subst heq
        exact h g (List.mem_cons_self _ _)
      · exact ih (fun g' hg' => h g' (List.mem_cons_of_mem _ hg')) g hmem

theorem bucket_nonempty_buildGroups (l : List (String × α)) :
    ∀ g ∈ buildGroups l, g.2 ≠ [] := by
  unfold buildGroups
  have key : ∀ (l' : List (String × α)) (gs : List (String × List α)),
      (∀ g ∈ gs, g.2 ≠ []) →
      ∀ g ∈ l'.foldl (fun gs ka => addToGroups gs ka.1 ka.2) gs, g.2 ≠ [] := by
    intro l'
    induction l' with
    | nil => intro gs h; exact h
    | cons x xs ih =>
      intro gs h
      exact ih _ (bucket_nonempty_addToGroups gs x.1 x.2 h)
  exact key l [] (by simp)

end Grouping

theorem any_map_general {α β : Type} (f : α → β) (l : List α) (p : β → Bool) :
    (l.map f).any p = l.any (fun a => p (f a)) := by
  induction l with
  | nil => rfl
  | cons x xs ih => simp [ih]

theorem beq_eq_decide_str (s k : String) : (s == k) = decide (s = k) := by
  by_cases h : s = k <;> simp [h]

theorem collapsed_sum_eq (gs : List (String × List (Nat × Tx)))
    (h : ∀ g ∈ gs, g.2 ≠ []) :
    ((gs.filterMap mkCollapsed).map (fun c => c.duplicateCount)).sum = gSize gs := by
  induction gs with
  | nil => rfl
  | cons g rest ih =>
    have hg := h g (List.mem_cons_self _ _)
    cases hg2 : g.2 with
    | nil => exact absurd hg2 hg
    | cons m0 ms =>
      simp only [List.filterMap_cons, mkCollapsed, hg2]
      simp only [List.map_cons, List.sum_cons]
      rw [ih (fun g' hg' => h g' (List.mem_cons_of_mem _ hg'))]
      simp [gSize, hg2]

theorem collapsed_countP_eq (gs : List (String × List (Nat × Tx)))
    (p : List (Nat × Tx) → Bool) (h : ∀ g ∈ gs, g.2 ≠ []) :
    (gs.filterMap mkCollapsed).countP (fun c => p c.members) =
      gs.countP (fun g => p g.2) := by
  induction gs with
  | nil => rfl
  | cons g rest ih =>
    have hg := h g (List.mem_cons_self _ _)
    cases hg2 : g.2 with
    | nil => exact absurd hg2 hg
    | cons m0 ms =>
      simp only [List.filterMap_cons, mkCollapsed, hg2, List.countP_cons]
      rw [ih (fun g' hg' => h g' (List.mem_cons_of_mem _ hg'))]

theorem enum_any_key (l : List Tx) (i : Nat) (hi : i < l.length) (k : String) :
    (l.enum.any (fun it => decide (groupKeyOf it.1 it.2 = k) && decide (it.1 = i))) =
      decide (groupKeyOf i l[i] = k) := by
  by_cases hq : groupKeyOf i l[i] = k
  · rw [decide_eq_true hq]
    apply List.any_eq_true.mpr
    refine ⟨(i, l[i]), ?_, by simp [hq]⟩
    rw [List.mem_enum_iff_getElem?]
    exact List.getElem?_eq_getElem hi
  · rw [decide_eq_false hq]
    apply List.any_eq_false.mpr
    intro x hx
    rw [List.mem_enum_iff_getElem?] at hx
    by_cases hxi : x.1 = i
    · have hx2 : x.2 = l[i] := by
        rw [hxi] at hx
        rw [List.getElem?_eq_getElem hi] at hx
        exact (Option.some.injEq _ _ ▸ hx).symm ▸ rfl
      simp only [hxi, hx2]
      simp [hq]
    · simp [hxi]

/-! ## C1: reconciler grouping invariants -/

theorem countP_on_keys (gs : List (String × List (Nat × Tx))) (q : String → Bool) :
    List.countP (fun g => q g.1) gs = List.countP q (gKeys gs) := by
  induction gs with
  | nil => rfl
  | cons g rest ih => simp [List.countP_cons, gKeys, ih]

theorem countP_fst_eq_count (K : List (String × (Nat × Tx))) (k : String) :
    List.countP (fun ka => decide (ka.1 = k)) K = (K.map (fun ka => ka.1)).count k := by
  rw [List.count, List.countP_map]
  apply List.countP_congr
  intro ka _
  simp [beq_eq_decide_str, Function.comp]

/-- C1: in every run of the reconciler, the duplicate counts of the
collapsed transactions sum to the total number of transactions, the
reported `duplicateGroupCount` equals the number of distinct group keys
with more than one member, and every transaction (by its input index)
belongs to exactly one collapsed duplicate group. -/
theorem C1_reconciler_invariants (custom : List (String × String))
    (overrides : String → Option String) (txs : List Tx) :
    (((combine_all_transactions custom overrides txs).collapsedTransactions.map
        (fun c => c.duplicateCount)).sum = txs.length) ∧
    ((combine_all_transactions custom overrides txs).duplicateGroupCount =
      ((firstDedup (txs.enum.map (fun it => groupKeyOf it.1 it.2))).filter
        (fun k => 1 < (txs.enum.map (fun it => groupKeyOf it.1 it.2)).count k)).length) ∧
    (∀ i, i < txs.length →
      ((combine_all_transactions custom overrides txs).collapsedTransactions.countP
        (fun c => c.members.any (fun m => decide (m.1 = i)))) = 1) := by
  have hK : ((txs.enum.map (fun it => (it.1, enrichTx custom overrides it.1 it.2))).map
      (fun it => (it.2.duplicateGroupKey, it))).map (fun ka => ka.1) =
      txs.enum.map (fun it => groupKeyOf it.1 it.2) := by
    simp only [List.map_map]
    apply List.map_congr_left
    intro it _
    simp [Function.comp, enrichTx]
  have hbuckets : ∀ g ∈ buildGroups
      ((txs.enum.map (fun it => (it.1, enrichTx custom overrides it.1 it.2))).map
        (fun it => (it.2.duplicateGroupKey, it))), g.2 ≠ [] :=
    bucket_nonempty_buildGroups _
  have hnd : (gKeys (buildGroups
      ((txs.enum.map (fun it => (it.1, enrichTx custom overrides it.1 it.2))).map
        (fun it => (it.2.duplicateGroupKey, it))))).Nodup :=
    gKeys_nodup_buildGroups _
  have hlen : ∀ g ∈ buildGroups
      ((txs.enum.map (fun it => (it.1, enrichTx custom overrides it.1 it.2))).map
        (fun it => (it.2.duplicateGroupKey, it))),
      g.2.length = (txs.enum.map (fun it => groupKeyOf it.1 it.2)).count g.1 := by
    intro g hg
    have hb := lookupB_of_mem hnd hg
    rw [← hb, lookupB_buildGroups, List.length_map, ← List.countP_eq_length_filter,
      countP_fst_eq_count, hK]
  refine ⟨?_, ?_, ?_⟩
  · simp only [combine_all_transactions]
    rw [collapsed_sum_eq _ hbuckets, gSize_buildGroups]
    simp
  · simp only [combine_all_transactions]
    rw [List.length_map, ← List.countP_eq_length_filter]
    rw [List.countP_congr (fun g hg => by rw [hlen g hg])]
    rw [countP_on_keys _ (fun s =>
        decide (1 < (txs.enum.map (fun it => groupKeyOf it.1 it.2)).count s))]
    rw [gKeys_eq_firstDedup, hK, List.countP_eq_length_filter]
  · intro i hi
    simp only [combine_all_transactions]
    rw [collapsed_countP_eq _ (fun ms => ms.any (fun m => decide (m.1 = i))) hbuckets]
    have hany : ∀ g ∈ buildGroups
        ((txs.enum.map (fun it => (it.1, enrichTx custom overrides it.1 it.2))).map
          (fun it => (it.2.duplicateGroupKey, it))),
        (g.2.any (fun m => decide (m.1 = i))) = decide (groupKeyOf i txs[i] = g.1) := by
      intro g hg
      have hb := lookupB_of_mem hnd hg
      rw [← hb, lookupB_buildGroups, any_map_general, List.any_filter, List.map_map,
        any_map_general]
      rw [← enum_any_key txs i hi g.1]
      exact congrArg (List.any txs.enum)
        (funext fun it => by simp [Function.comp, enrichTx])
    rw [List.countP_congr (fun g hg => by rw [hany g hg])]
    rw [countP_on_keys _ (fun s => decide (groupKeyOf i txs[i] = s))]
    have hc : List.countP (fun s => decide (groupKeyOf i txs[i] = s))
        (gKeys (buildGroups
          ((txs.enum.map (fun it => (it.1, enrichTx custom overrides it.1 it.2))).map
            (fun it => (it.2.duplicateGroupKey, it))))) =
        List.count (groupKeyOf i txs[i])
          (gKeys (buildGroups
            ((txs.enum.map (fun it => (it.1, enrichTx custom overrides it.1 it.2))).map
              (fun it => (it.2.duplicateGroupKey, it))))) := by
      rw [List.count]
      apply List.countP_congr
      intro s _
      rw [beq_eq_decide_str]
      simp [eq_comm]
    rw [hc]
    apply List.count_eq_one_of_mem hnd
    rw [mem_gKeys_buildGroups, hK]
    apply List.mem_map.mpr
    refine ⟨(i, txs[i]), ?_, rfl⟩
    rw [List.mem_enum_iff_getElem?]
    exact List.getElem?_eq_getElem hi

theorem C1_reconciler_invariants_witness :
    (((combine_all_transactions [] (fun _ => none) c1WitnessTxs).collapsedTransactions.map
        (fun c => c.duplicateCount)).sum = 3) ∧
    ((combine_all_transactions [] (fun _ => none) c1WitnessTxs).collapsedTransactions.countP
        (fun c => c.members.any (fun m => decide (m.1 = 0))) = 1) ∧
    ((combine_all_transactions [] (fun _ => none) c1WitnessTxs).collapsedTransactions.countP
        (fun c => c.members.any (fun m => decide (m.1 = 2))) = 1) :=
  ⟨((C1_reconciler_invariants [] (fun _ => none) c1WitnessTxs).1).trans (by decide),
   (C1_reconciler_invariants [] (fun _ => none) c1WitnessTxs).2.2 0 (by decide),
   (C1_reconciler_invariants [] (fun _ => none) c1WitnessTxs).2.2 2 (by decide)⟩

/-! ## C5: group-key determinism -/

theorem groupKeyOf_ext (idx : Nat) (t t' : Tx)
    (h1 : normalize_date_string (effDateStr t) = normalize_date_string (effDateStr t'))
    (h2 : effAmount t = effAmount t') : groupKeyOf idx t = groupKeyOf idx t' := by
  unfold groupKeyOf
  rw [h1, h2]

/-- C5: the duplicate-group key is a deterministic function of only the
normalized date, the effective amount value and the index: when both the
date and the amount are present the key is `"{date}:{amount, 2 decimals}"`,
otherwise the synthetic per-index key; two runs over transaction lists that
agree pointwise on those inputs (in particular, two runs on the same input)
produce identical key sequences and identical grouping shapes. -/
theorem C5_group_key_deterministic (txs txs' : List Tx)
    (hlen : txs.length = txs'.length)
    (hpt : ∀ i (hi : i < txs.length) (hi' : i < txs'.length),
      normalize_date_string (effDateStr txs[i]) =
        normalize_date_string (effDateStr txs'[i]) ∧
      effAmount txs[i] = effAmount txs'[i]) :
    (∀ idx tx dk v, normalize_date_string (effDateStr tx) = some dk → dk ≠ "" →
      effAmount tx = some v →
      groupKeyOf idx tx = dk ++ ":" ++ format2 (round2 v)) ∧
    (∀ idx tx, (normalize_date_string (effDateStr tx) = none ∨ effAmount tx = none) →
      groupKeyOf idx tx = "__ungrouped__" ++ toString idx) ∧
    (txs.enum.map (fun it => groupKeyOf it.1 it.2) =
      txs'.enum.map (fun it => groupKeyOf it.1 it.2)) ∧
    (buildGroups (txs.enum.map (fun it => (groupKeyOf it.1 it.2, it.1))) =
      buildGroups (txs'.enum.map (fun it => (groupKeyOf it.1 it.2, it.1)))) := by
  have hkey : ∀ i (hi : i < txs.length) (hi' : i < txs'.length),
      groupKeyOf i txs[i] = groupKeyOf i txs'[i] := fun i hi hi' =>
    groupKeyOf_ext i _ _ ((hpt i hi hi').1) ((hpt i hi hi').2)
  refine ⟨?_, ?_, ?_, ?_⟩
  · intro idx tx dk v hdk hne hv
    unfold groupKeyOf
    rw [hdk, hv]
    simp only [Option.getD_some]
    rw [if_neg hne]
  · intro idx tx hor
    unfold groupKeyOf
    rcases hor with h | h
    · rw [h]
      cases hv : effAmount tx with
      | none => rfl
      | some v => simp
    · rw [h]
  · apply List.ext_getElem
    · simp [hlen]
    · intro i h1 h2
      simp only [List.getElem_map, List.getElem_enum]
      exact hkey i (by simpa using h1) (by simpa using h2)
  · apply congrArg buildGroups
    apply List.ext_getElem
    · simp [hlen]
    · intro i h1 h2
      simp only [List.getElem_map, List.getElem_enum]
      rw [hkey i (by simpa using h1) (by simpa using h2)]

theorem C5_group_key_deterministic_witness :
    (groupKeyOf 0
        { date := "2024-02-01", amountValue := some 250, description := "A" : Tx } =
      "2024-02-01" ++ ":" ++ format2 (round2 250)) ∧
    (groupKeyOf 7 { description := "no date" : Tx } = "__ungrouped__" ++ toString 7) ∧
    ([({ date := "2024-02-01", amountValue := some 250, description := "A" : Tx })].enum.map
        (fun it => groupKeyOf it.1 it.2) =
      [({ date := "2024-02-01", amountValue := some 250, description := "B",
          sourceFile := "x.pdf" : Tx })].enum.map (fun it => groupKeyOf it.1 it.2)) := by
  have h := C5_group_key_deterministic
    [{ date := "2024-02-01", amountValue := some 250, description := "A" }]
    [{ date := "2024-02-01", amountValue := some 250, description := "B",
       sourceFile := "x.pdf" }]
    (by decide)
    (by
      intro i hi hi'
      have h0 : i = 0 := by
        simp only [List.length_singleton] at hi
        omega
      subst h0
      exact ⟨rfl, rfl⟩)
  exact ⟨h.1 0 _ "2024-02-01" 250 (by decide) (by decide) rfl,
         h.2.1 7 _ (Or.inl (by decide)),
         h.2.2.1⟩


/-- C4: both normalizers are idempotent.  An already-ISO `YYYY-MM-DD` date
(the `strftime("%Y-%m-%d")` rendering of any valid four-digit-year date) is
returned unchanged by `normalize_date_string`, and re-normalizing the
two-decimal rendering of any value produced by `normalize_amount_value`
yields that same value. -/
theorem C4_idempotence (pd : PDate) (hy : 1000 ≤ pd.year) (hy2 : pd.year ≤ 9999)
    (hv : validDate pd = true) (s : String) (q : ℚ)
    (hq : normalize_amount_value s = some q) :
    normalize_date_string (renderISO pd) = some (renderISO pd) ∧
    normalize_amount_value (format2 q) = some q := by
  obtain ⟨y, m, d⟩ := pd
  exact ⟨normalize_date_iso y m d hy hy2 hv, normalize_amount_idem s q hq⟩

theorem C4_idempotence_witness :
    normalize_amount_value "123.45" = some (((12345 : ℤ) : ℚ) / 100) ∧
    (normalize_date_string (renderISO ⟨2024, 2, 1⟩) = some (renderISO ⟨2024, 2, 1⟩) ∧
     normalize_amount_value (format2 (((12345 : ℤ) : ℚ) / 100)) =
       some (((12345 : ℤ) : ℚ) / 100)) := by
  have ha : normalize_amount_value "123.45" = some (((12345 : ℤ) : ℚ) / 100) := by
    have h := normalize_amount_render 12345
    rw [show format2 (((12345 : ℤ) : ℚ) / 100) = "123.45" from by rw [format2_chars]; rfl] at h
    exact h
  exact ⟨ha, C4_idempotence ⟨2024, 2, 1⟩ (by decide) (by decide) (by decide) "123.45" _ ha⟩

/-- C8: for every `dd/mm/yy` (also `-` or `.` separated) date whose
two-digit year is below 50 and which names a valid calendar date in the
2000s, `normalize_date_string` maps the year to `2000 + yy`. -/
theorem C8_two_digit_year_pivot (d m yy : Nat) (sep : Char)
    (hsep : sep = '/' ∨ sep = '-' ∨ sep = '.') (hyy : yy < 50)
    (hv : validDate ⟨2000 + yy, m, d⟩ = true) :
    normalize_date_string ⟨pad2 d ++ sep :: pad2 m ++ sep :: pad2 yy⟩ =
      some (renderISO ⟨2000 + yy, m, d⟩) :=
  normalize_ddmmy2 d m yy sep hsep hyy hv

theorem C8_two_digit_year_pivot_witness :
    normalize_date_string "01/02/24" = some "2024-02-01" := by
  have h := C8_two_digit_year_pivot 1 2 24 '/' (Or.inl rfl) (by decide) (by decide)
  rw [show ("01/02/24" : String) = ⟨pad2 1 ++ '/' :: pad2 2 ++ '/' :: pad2 24⟩ from by
    decide]
  rw [h]
  decide

end PdfReader
